import Mathlib

/-!
Verification of the jsonschema-pydantic-converter schema compiler.

The development shallowly embeds the repository's Python source:
JSON-compatible Python values become the inductive `JVal` (dicts are
insertion-ordered association lists, as in Python 3.7+), fallible code
returns `Except`, and the pydantic host library (an external collaborator
per the specification) is modelled by an executable validator over the
compiled type descriptions.  Floating-point numbers are omitted from the
value model: no verified property involves them.
-/

namespace JsonSchemaPydantic

/-- A JSON-compatible Python value.  Python dicts are modelled as
insertion-ordered association lists with (in well-formed inputs) unique
string keys. -/
inductive JVal where
  | null
  | bool (b : Bool)
  | int (n : Int)
  | str (s : String)
  | arr (elts : List JVal)
  | obj (entries : List (String × JVal))

/-- A schema fragment: the entry list of a Python dict. -/
abbrev Obj := List (String × JVal)

/-- First binding of key `k` (Python dicts have unique keys, so the first
binding is the binding). -/
def lookup? (d : Obj) (k : String) : Option JVal :=
  match d with
  | [] => none
  | (k', v) :: rest => if k' = k then some v else lookup? rest k

/-- Python `k in d`. -/
def hasKey (d : Obj) (k : String) : Bool :=
  (lookup? d k).isSome

/-- Python `d[k] = v`: replace in place when the key exists (keeping its
position), append otherwise. -/
def setKey (d : Obj) (k : String) (v : JVal) : Obj :=
  match d with
  | [] => [(k, v)]
  | (k', w) :: rest => if k' = k then (k, v) :: rest else (k', w) :: setKey rest k v

/-- Generic dict assignment for string-keyed maps with arbitrary values. -/
def dictSet {α : Type} (d : List (String × α)) (k : String) (v : α) : List (String × α) :=
  match d with
  | [] => [(k, v)]
  | (k', w) :: rest => if k' = k then (k, v) :: rest else (k', w) :: dictSet rest k v

/-- Python `d.update(e)`: assign every binding of `e` into `d` in order. -/
def dictUpdate {α : Type} (d e : List (String × α)) : List (String × α) :=
  e.foldl (fun acc kv => dictSet acc kv.1 kv.2) d

/- Python value equality (`==`).  Booleans compare equal to the integers
0 and 1.  Dict entries are compared keywise in insertion order, which is
adequate for the scalar comparisons the source performs. -/
mutual

def pyEq : JVal → JVal → Bool
  | .null, .null => true
  | .bool a, .bool b => a == b
  | .bool a, .int n => (if a then (1 : Int) else 0) == n
  | .int n, .bool b => n == (if b then (1 : Int) else 0)
  | .int m, .int n => m == n
  | .str s, .str t => s == t
  | .arr xs, .arr ys => pyEqList xs ys
  | .obj xs, .obj ys => pyEqEntries xs ys
  | _, _ => false

def pyEqList : List JVal → List JVal → Bool
  | [], [] => true
  | x :: xs, y :: ys => pyEq x y && pyEqList xs ys
  | _, _ => false

def pyEqEntries : List (String × JVal) → List (String × JVal) → Bool
  | [], [] => true
  | (k, v) :: xs, (k', v') :: ys => k == k' && pyEq v v' && pyEqEntries xs ys
  | _, _ => false

end

/-- Python truthiness. -/
def pyTruthy : JVal → Bool
  | .null => false
  | .bool b => b
  | .int n => n != 0
  | .str s => s ≠ ""
  | .arr xs => !xs.isEmpty
  | .obj xs => !xs.isEmpty

/-- Truthiness of the result of `dict.get` (Python `None` is falsy). -/
def pyTruthyOpt : Option JVal → Bool
  | none => false
  | some v => pyTruthy v

/-- A single-quote character, used when rebuilding the source's error
messages. -/
def sq : String := String.mk [Char.ofNat 39]

/-- Python `str()` of a value, to the extent the rebuilt error messages
need it (the source only formats scalars there). -/
def pyStr : JVal → String
  | .null => "None"
  | .bool b => if b then "True" else "False"
  | .int n => toString n
  | .str s => s
  | .arr _ => "[...]"
  | .obj _ => "dict(...)"

/-- Python `needle in haystack` for strings (substring test). -/
def strContains (haystack needle : String) : Bool :=
  decide (needle.data.IsInfix haystack.data)

/-! ## `_schema_utils.is_allof_object_schemas` -/

/-- Whether one `allOf` branch looks object-shaped
(`s.get("type") == "object" or "properties" in s or "additionalProperties" in s`). -/
def branchIsObject (s : Obj) : Bool :=
  (match lookup? s "type" with
   | some t => pyEq t (.str "object")
   | none => false)
  || hasKey s "properties" || hasKey s "additionalProperties"

/-- `is_allof_object_schemas`: at least one branch declares `properties`,
or every branch is object-shaped. -/
def is_allof_object_schemas (allof_schemas : List Obj) : Bool :=
  allof_schemas.any (fun s => hasKey s "properties")
    || allof_schemas.all branchIsObject

/-! ## `_schema_utils.merge_allof_object_schemas` -/

/-- Accumulator of the merge loop: `merged_properties`, `merged_required`,
`merged_additional_properties`. -/
structure MergeState where
  props : Obj
  required : List JVal
  addProps : Option JVal

/-- Python `None`-collapse: assigning a JSON `null` to
`merged_additional_properties` leaves it indistinguishable from unset. -/
def optFromVal : JVal → Option JVal
  | .null => none
  | v => some v

/-- One step of the metadata union (`if key in prop_schema and key not in
existing: existing[key] = prop_schema[key]`). -/
def metaStep (prop_schema ex : Obj) (key : String) : Obj :=
  match lookup? prop_schema key with
  | some v => if hasKey ex key then ex else setKey ex key v
  | none => ex

/-- Union of the four metadata keys into the existing property schema
(existing keys win). -/
def mergeMeta (existing prop_schema : Obj) : Obj :=
  ["title", "description", "default", "type"].foldl (metaStep prop_schema) existing

/-- Merging one property schema into an already-merged property of the same
name: conflict check on the declared types, then the metadata union. -/
def mergePropEntry (prop_name : String) (existing prop_schema : Obj) :
    Except String Obj :=
  let existing_type := lookup? existing "type"
  let new_type := lookup? prop_schema "type"
  if pyTruthyOpt existing_type && pyTruthyOpt new_type
      && !(pyEq (existing_type.getD .null) (new_type.getD .null)) then
    .error ("Incompatible types for property " ++ sq ++ prop_name ++ sq
      ++ " in allOf: " ++ sq ++ pyStr (existing_type.getD .null) ++ sq
      ++ " vs " ++ sq ++ pyStr (new_type.getD .null) ++ sq)
  else
    .ok (mergeMeta existing prop_schema)

/-- The inner loop over one branch's `properties` entries. -/
def mergePropEntries (props : Obj) : List (String × JVal) → Except String Obj
  | [] => .ok props
  | (prop_name, prop_val) :: rest =>
    match prop_val with
    | .obj prop_schema =>
      match lookup? props prop_name with
      | some (.obj existing) =>
        match mergePropEntry prop_name existing prop_schema with
        | .ok merged => mergePropEntries (setKey props prop_name (.obj merged)) rest
        | .error e => .error e
      | some _ => .error "internal: merged property is not a dict"
      | none => mergePropEntries (setKey props prop_name (.obj prop_schema)) rest
    | _ => .error "TypeError: property schema is not a dict"

/-- The `additionalProperties` accumulation: an explicit `False` (Python
`is False`) always wins; otherwise the first value that is not `null`
sticks. -/
def apStep (acc : Option JVal) : Option JVal → Option JVal
  | none => acc
  | some v =>
    match v, acc with
    | .bool false, _ => some (.bool false)
    | _, none => optFromVal v
    | _, some a => some a

/-- The branch body after the top-level type check:
`additionalProperties` accumulation, property merge, `required`
extension.  Shape violations that would crash the Python code (a non-dict
`properties` value, a non-list `required` value) are modelled as
errors. -/
def mergeBranchCore (st : MergeState) (sub_schema : Obj) : Except String MergeState :=
  let st1 : MergeState :=
    { st with addProps := apStep st.addProps (lookup? sub_schema "additionalProperties") }
  let next : Except String MergeState :=
    match lookup? sub_schema "properties" with
    | none => .ok st1
    | some (.obj entries) =>
      match mergePropEntries st1.props entries with
      | .ok props => .ok { st1 with props := props }
      | .error e => .error e
    | some _ => .error "TypeError: properties is not a dict"
  match next with
  | .error e => .error e
  | .ok st2 =>
    match lookup? sub_schema "required" with
    | none => .ok st2
    | some (.arr xs) => .ok { st2 with required := st2.required ++ xs }
    | some _ => .error "TypeError: required is not a list"

/-- One iteration of the branch loop: top-level type check, then the
branch body. -/
def mergeBranch (st : MergeState) (sub_schema : Obj) : Except String MergeState :=
  match lookup? sub_schema "type" with
  | some t =>
    if !pyEq t (.str "object") then
      .error ("Incompatible types in allOf: expected " ++ sq ++ "object" ++ sq
        ++ ", got " ++ sq ++ pyStr t ++ sq)
    else mergeBranchCore st sub_schema
  | none => mergeBranchCore st sub_schema

/-- The branch loop. -/
def mergeBranches : MergeState → List Obj → Except String MergeState
  | st, [] => .ok st
  | st, b :: bs =>
    match mergeBranch st b with
    | .ok st' => mergeBranches st' bs
    | .error e => .error e

/-- Model of Python `list(set(l))`: duplicates (under value equality, so a
boolean collapses with its integer) are removed, keeping each first
occurrence.  The orderings the claims state are order-insensitive, so the
hash-dependent ordering of a real Python set does not matter. -/
def pyDedup (l : List JVal) : List JVal :=
  l.foldl (fun acc x => if acc.any (fun z => pyEq z x) then acc else acc ++ [x]) []

/-- `merge_allof_object_schemas`: fold the branches, then assemble the
merged schema (`required` only when non-empty, `additionalProperties` only
when accumulated, `title` only when truthy). -/
def merge_allof_object_schemas (allof_schemas : List Obj) (title : Option String) :
    Except String Obj :=
  match mergeBranches ⟨[], [], none⟩ allof_schemas with
  | .error e => .error e
  | .ok st =>
    let merged_required := pyDedup st.required
    let base : Obj := [("type", .str "object"), ("properties", .obj st.props)]
    let withReq := if merged_required.isEmpty then base
      else base ++ [("required", .arr merged_required)]
    let withAp :=
      match st.addProps with
      | some v => withReq ++ [("additionalProperties", v)]
      | none => withReq
    .ok (match title with
      | some t => if t ≠ "" then withAp ++ [("title", .str t)] else withAp
      | none => withAp)

/-! ## Reference Resolver and namespace keys -/

/-- Model of Python `str.capitalize()`: first character upper-cased, the
rest lower-cased (ASCII model of the stdlib function). -/
def pyCapitalize (s : String) : String :=
  match s.data with
  | [] => ""
  | c :: cs => String.mk (c.toUpper :: cs.map Char.toLower)

/-- Model of `name.replace("/", "_")`: for a one-character pattern,
`str.replace` is exactly a character map. -/
def pyReplaceSlash (s : String) : String :=
  String.mk (s.data.map (fun c => if c = '/' then '_' else c))

/-- The namespace key assigned to one collected definition path
(`name.replace("/", "_").capitalize()`). -/
def nsKey (path : String) : String := pyCapitalize (pyReplaceSlash path)

/-- Python `s.split("/")` at character level. -/
def splitSlash (l : List Char) : List (List Char) :=
  match l with
  | [] => [[]]
  | '/' :: cs => [] :: splitSlash cs
  | c :: cs =>
    match splitSlash cs with
    | [] => [[c]]
    | p :: ps => (c :: p) :: ps

/-- Python `"_".join(parts)` at character level. -/
def joinUnderscore : List (List Char) → List Char
  | [] => []
  | [p] => p
  | p :: ps => p ++ '_' :: joinUnderscore ps

/-- `resolve_ref_path`: local refs (leading `#/`) are split on `/`, the
definition container keywords are filtered out, the rest joined with `_`
and capitalized; external refs keep only the final segment. -/
def resolve_ref_path (ref : String) : String :=
  match ref.data with
  | '#' :: '/' :: ref_path =>
    let parts := splitSlash ref_path
    let name_parts := parts.filter
      (fun p => p ≠ "$defs".data && p ≠ "definitions".data)
    pyCapitalize (String.mk (joinUnderscore name_parts))
  | _ =>
    pyCapitalize (String.mk ((splitSlash ref.data).getLastD []))

/-! ## Compile-time errors and type descriptions -/

/-- Compile-time failure of the modelled compiler.  `fuel` is a modelling
artifact (recursion budget exhausted), distinct from any program
behaviour; `typeError` models a Python crash on a shape the code does not
guard against; `unsupported` is the compiler's own `Unsupported schema`
error. -/
inductive CompErr where
  | unsupported (msg : String)
  | typeError (msg : String)
  | fuel
deriving Repr, DecidableEq

/-- The compiled type description: the runtime type the compiler hands to
the host validator library.  `Annotated[..., Field(...)]` constraint
wrappers become the `...Con` constructors; the introspection-only
`json_schema_extra` overrides are not modelled (no verified property reads
the regenerated schema). -/
inductive PType where
  | anyT
  | strT
  | strCon (minLength maxLength pattern : Option JVal)
  | intT
  | floatT
  | boolT
  | noneT
  | dictStrAny
  | numCon (isInt : Bool) (ge le gt lt multipleOf : Option JVal)
  | listOf (elem : PType)
  | listCon (elem : PType) (minItems maxItems : Option JVal)
  | tupleOf (elems : List PType)
  | objT (title descr : Option JVal)
      (fields : List (String × PType × Option JVal × Option JVal × Option JVal))
  | enumT (title : Option JVal) (base : Option PType) (vals : List JVal)
  | literalT (vals : List JVal)
  | rejectAll (msg : String)
  | constT (c : JVal)
  | unionT (ts : List PType)
  | intersectionT (ts : List PType)
  | negationT (t : PType)
  | forwardRef (name : String)
  | optionalT (t : PType)

/-- Python `type()` discrimination (booleans are distinct from integers). -/
def typeTag : JVal → Nat
  | .null => 0
  | .bool _ => 1
  | .int _ => 2
  | .str _ => 3
  | .arr _ => 4
  | .obj _ => 5

/-- The `enum`-without-`type` representation policy: empty enums reject
everything, enums containing a boolean or mixing runtime kinds become a
literal set, homogeneous string/integer enums become a proper enumeration
over that base (the float base is unreachable in a float-free value
model), anything else falls back to a literal set. -/
def enumNoType (vals : List JVal) (title : Option JVal) : PType :=
  match vals with
  | [] => .rejectAll "No values are allowed for empty enum"
  | v0 :: _ =>
    if vals.any (fun v => typeTag v == 1) then .literalT vals
    else if vals.any (fun v => typeTag v != typeTag v0) then .literalT vals
    else
      match v0 with
      | .str _ => .enumT title (some .strT) vals
      | .int _ => .enumT title (some .intT) vals
      | _ => .literalT vals

/-- The compiler's `type_mapping` dict (bare `List` is modelled as a list
of `Any`, the `None` annotation as the null type). -/
def type_mapping (t : JVal) : Option PType :=
  match t with
  | .str "string" => some .strT
  | .str "number" => some .floatT
  | .str "integer" => some .intT
  | .str "boolean" => some .boolT
  | .str "array" => some (.listOf .anyT)
  | .str "object" => some .dictStrAny
  | .str "null" => some .noneT
  | _ => none

/-- Numeric constraint capture for `type: integer` / `type: number`. -/
def numericResult (isInt : Bool) (prop : Obj) : PType :=
  let ge := lookup? prop "minimum"
  let le := lookup? prop "maximum"
  let gt := lookup? prop "exclusiveMinimum"
  let lt := lookup? prop "exclusiveMaximum"
  let mof := lookup? prop "multipleOf"
  if ge.isSome || le.isSome || gt.isSome || lt.isSome || mof.isSome then
    .numCon isInt ge le gt lt mof
  else if isInt then .intT else .floatT

/-- Compile every element of an `allOf`/`anyOf`/`oneOf`/tuple schema list;
a non-dict element would crash the Python recursion and is modelled as an
error. -/
def compileList (go : Obj → Except CompErr PType) : List JVal → Except CompErr (List PType)
  | [] => .ok []
  | .obj s :: rest =>
    match go s with
    | .ok t =>
      match compileList go rest with
      | .ok ts => .ok (t :: ts)
      | .error e => .error e
    | .error e => .error e
  | _ :: _ => .error (.typeError "sub-schema is not a dict")

/-- The `type: array` handling: tuple validation when `items` is a list or
`prefixItems` is truthy (`prefixItems` wins), otherwise a sequence over
the possibly-absent item schema with min/max length constraints. -/
def arrayBranch (go : Obj → Except CompErr PType) (prop : Obj) : Except CompErr PType :=
  let items_value := lookup? prop "items"
  let prefix_items := lookup? prop "prefixItems"
  let isTupleItems := match items_value with | some (.arr _) => true | _ => false
  if isTupleItems || pyTruthyOpt prefix_items then
    let tuple_schemas : Except CompErr (List JVal) :=
      if pyTruthyOpt prefix_items then
        match prefix_items with
        | some (.arr xs) => .ok xs
        | _ => .error (.typeError "prefixItems is not a list")
      else
        match items_value with
        | some (.arr xs) => .ok xs
        | _ => .error (.typeError "items is not a list")
    match tuple_schemas with
    | .error e => .error e
    | .ok schemas =>
      match compileList go schemas with
      | .ok ts => .ok (.tupleOf ts)
      | .error e => .error e
  else
    let itemSchema : Except CompErr Obj :=
      if pyTruthyOpt items_value then
        match items_value with
        | some (.obj o) => .ok o
        | _ => .error (.typeError "items is not a dict")
      else .ok []
    match itemSchema with
    | .error e => .error e
    | .ok iobj =>
      match go iobj with
      | .error e => .error e
      | .ok item_type =>
        let mi := lookup? prop "minItems"
        let ma := lookup? prop "maxItems"
        if mi.isSome || ma.isSome || hasKey prop "uniqueItems" then
          if mi.isSome || ma.isSome then .ok (.listCon item_type mi ma)
          else .ok (.listOf item_type)
        else .ok (.listOf item_type)

/-- Build the object model's fields.  A property with an explicit
`default` keeps its type and that default; one without a default that is
not listed in `required` is wrapped `Optional` with a `None` default; one
listed in `required` without a default stays unwrapped with no default
(i.e. required). -/
def buildFields (go : Obj → Except CompErr PType) (reqs : List JVal) :
    List (String × JVal) →
      Except CompErr (List (String × PType × Option JVal × Option JVal × Option JVal))
  | [] => .ok []
  | (name, pval) :: rest =>
    match pval with
    | .obj property =>
      match go property with
      | .error e => .error e
      | .ok pydantic_type =>
        let field :=
          if hasKey property "default" then
            (pydantic_type, lookup? property "default")
          else if !(reqs.any (fun r => pyEq (.str name) r)) then
            (PType.optionalT pydantic_type, some JVal.null)
          else (pydantic_type, none)
        match buildFields go reqs rest with
        | .ok fields =>
          .ok ((name, field.1, field.2, lookup? property "description",
            lookup? property "title") :: fields)
        | .error e => .error e
    | _ => .error (.typeError "property schema is not a dict")

/-- The `type: object` handling: without `properties` an open string-keyed
mapping, otherwise a named model.  The anonymous `DynamicType_<n>` counter
names are display-only and modelled as an absent title. -/
def objectBranch (go : Obj → Except CompErr PType) (prop : Obj) : Except CompErr PType :=
  match lookup? prop "properties" with
  | none => .ok .dictStrAny
  | some (.obj properties) =>
    let title := if pyTruthyOpt (lookup? prop "title") then lookup? prop "title" else none
    let required_fields : Except CompErr (List JVal) :=
      match lookup? prop "required" with
      | none => .ok []
      | some (.arr xs) => .ok xs
      | some _ => .error (.typeError "required is not a list")
    match required_fields with
    | .error e => .error e
    | .ok reqs =>
      match buildFields go reqs properties with
      | .ok fields => .ok (.objT title (lookup? prop "description") fields)
      | .error e => .error e
  | some _ => .error (.typeError "properties is not a dict")

/-- The `if "type" in prop` branch of the dispatch (enum-with-type first,
then per-type handling, then the `type_mapping` fallback). -/
def typeBranch (go : Obj → Except CompErr PType) (prop : Obj) (type_ : JVal) :
    Except CompErr PType :=
  match lookup? prop "enum" with
  | some (.arr vals) =>
    .ok (.enumT (lookup? prop "title") (some ((type_mapping type_).getD .anyT)) vals)
  | some _ => .error (.typeError "enum is not a list")
  | none =>
    match type_ with
    | .str "array" => arrayBranch go prop
    | .str "string" =>
      let mi := lookup? prop "minLength"
      let ma := lookup? prop "maxLength"
      let pat := lookup? prop "pattern"
      if mi.isSome || ma.isSome || pat.isSome then .ok (.strCon mi ma pat) else .ok .strT
    | .str "integer" => .ok (numericResult true prop)
    | .str "number" => .ok (numericResult false prop)
    | .str "object" => objectBranch go prop
    | t => .ok ((type_mapping t).getD .anyT)

/-- The bare-constraint tail of the dispatch: empty fragment is `Any`,
numeric/string/array constraint keywords infer a base kind, object-shape
keywords give an open mapping, anything else is unsupported. -/
def tailBranch (prop : Obj) : Except CompErr PType :=
  if prop.isEmpty then .ok .anyT
  else if ["minimum", "maximum", "exclusiveMinimum", "exclusiveMaximum",
      "multipleOf"].any (fun k => hasKey prop k) then
    .ok (.numCon false (lookup? prop "minimum") (lookup? prop "maximum")
      (lookup? prop "exclusiveMinimum") (lookup? prop "exclusiveMaximum")
      (lookup? prop "multipleOf"))
  else if ["minLength", "maxLength", "pattern"].any (fun k => hasKey prop k) then
    .ok (.strCon (lookup? prop "minLength") (lookup? prop "maxLength")
      (lookup? prop "pattern"))
  else if ["minItems", "maxItems", "uniqueItems"].any (fun k => hasKey prop k) then
    if (lookup? prop "minItems").isSome || (lookup? prop "maxItems").isSome then
      .ok (.listCon .anyT (lookup? prop "minItems") (lookup? prop "maxItems"))
    else .ok (.listOf .anyT)
  else if ["minProperties", "maxProperties", "properties", "required",
      "additionalProperties", "patternProperties", "propertyNames"].any
      (fun k => hasKey prop k) then
    .ok .dictStrAny
  else .error (.unsupported ("Unsupported schema: " ++ pyStr (.obj prop)))

/-- `convert_type` of the general validator compiler: first-match
dispatch over `$ref`, `allOf`, `anyOf`, `oneOf`, `not`, `const`,
`enum`-without-`type`, the `if` pass-through, `type`, then the bare
constraint tail.  The `fuel` parameter bounds the recursion depth of the
model; the source recursion is bounded by the (finite) schema nesting. -/
def convert_type : Nat → Obj → Except CompErr PType
  | 0, _ => .error .fuel
  | fuel + 1, prop =>
    match lookup? prop "$ref" with
    | some (.str ref) => .ok (.forwardRef (resolve_ref_path ref))
    | some _ => .error (.typeError "ref is not a string")
    | none =>
      match lookup? prop "allOf" with
      | some (.arr subs) =>
        (match compileList (convert_type fuel) subs with
         | .ok ts => .ok (.intersectionT ts)
         | .error e => .error e)
      | some _ => .error (.typeError "allOf is not a list")
      | none =>
        match lookup? prop "anyOf" with
        | some (.arr subs) =>
          (match compileList (convert_type fuel) subs with
           | .ok ts => .ok (.unionT ts)
           | .error e => .error e)
        | some _ => .error (.typeError "anyOf is not a list")
        | none =>
          match lookup? prop "oneOf" with
          | some (.arr subs) =>
            (match compileList (convert_type fuel) subs with
             | .ok ts => .ok (.unionT ts)
             | .error e => .error e)
          | some _ => .error (.typeError "oneOf is not a list")
          | none =>
            match lookup? prop "not" with
            | some (.obj s) =>
              (match convert_type fuel s with
               | .ok t => .ok (.negationT t)
               | .error e => .error e)
            | some _ => .error (.typeError "not sub-schema is not a dict")
            | none =>
              match lookup? prop "const" with
              | some c => .ok (.constT c)
              | none =>
                match lookup? prop "enum", lookup? prop "type" with
                | some (.arr vals), none => .ok (enumNoType vals (lookup? prop "title"))
                | some _, none => .error (.typeError "enum is not a list")
                | _, _ =>
                  if hasKey prop "if" && !hasKey prop "type" then .ok .anyT
                  else
                    match lookup? prop "type" with
                    | some t => typeBranch (convert_type fuel) prop t
                    | none => tailBranch prop

/-! ## Definition Collector and entry point -/

/-- The loop body of `collect_definitions`: record each definition under
its path-joined name, then merge the recursively collected nested
definitions (dict-update, last write wins). -/
def collectEntries (go : Obj → String → Except CompErr (List (String × JVal)))
    (path : String) :
    List (String × JVal) → List (String × JVal) → Except CompErr (List (String × JVal))
  | defs, [] => .ok defs
  | defs, (def_name, definition) :: rest =>
    let full_name := if path = "" then def_name else path ++ "/" ++ def_name
    let defs := dictSet defs full_name definition
    match definition with
    | .obj dd =>
      match go dd full_name with
      | .ok nested => collectEntries go path (dictUpdate defs nested) rest
      | .error e => .error e
    | _ => collectEntries go path defs rest

/-- `collect_definitions`: the `$defs` container is preferred over
`definitions`; each entry is recorded and recursed into depth-first. -/
def collect_definitions : Nat → Obj → String → Except CompErr (List (String × JVal))
  | 0, _, _ => .error .fuel
  | fuel + 1, schema_dict, path =>
    match lookup? schema_dict "$defs" with
    | some (.obj d) => collectEntries (collect_definitions fuel) path [] d
    | some _ => .error (.typeError "defs container is not a dict")
    | none =>
      match lookup? schema_dict "definitions" with
      | some (.obj d) => collectEntries (collect_definitions fuel) path [] d
      | some _ => .error (.typeError "definitions container is not a dict")
      | none => .ok []

/-- Populate the namespace: each collected definition is compiled and
stored under `nsKey` of its path, in collection order. -/
def buildNamespace (fuel : Nat) :
    List (String × PType) → List (String × JVal) → Except CompErr (List (String × PType))
  | ns, [] => .ok ns
  | ns, (name, .obj defn) :: rest =>
    match convert_type fuel defn with
    | .ok model => buildNamespace fuel (dictSet ns (nsKey name) model) rest
    | .error e => .error e
  | _, (_, _) :: _ => .error (.typeError "definition is not a dict")

/-- `create_type_adapter`: boolean degenerate schemas, then collect the
definitions, populate the namespace, and compile the root.  The final
rebuild/bind step is modelled by returning the root type alongside the
namespace. -/
def create_type_adapter (fuel : Nat) (schema : JVal) :
    Except CompErr (PType × List (String × PType)) :=
  match schema with
  | .bool true => .ok (.anyT, [])
  | .bool false => .ok (.rejectAll "Schema is false - no values are valid", [])
  | .obj s =>
    match collect_definitions fuel s "" with
    | .error e => .error e
    | .ok all_definitions =>
      match buildNamespace fuel [] all_definitions with
      | .error e => .error e
      | .ok ns =>
        match convert_type fuel s with
        | .ok model => .ok (model, ns)
        | .error e => .error e
  | _ => .error (.typeError "schema is not a dict or bool")

/-! ## Runtime validation model -/

/-- Runtime exceptions of the validation path: pydantic's
`ValidationError`, a plain `ValueError`, and any other exception class. -/
inductive PyExc where
  | validationError (msg : String)
  | valueError (msg : String)
  | otherError (msg : String)
deriving Repr, DecidableEq

/-- The message carried by an exception. -/
def PyExc.msg : PyExc → String
  | .validationError m => m
  | .valueError m => m
  | .otherError m => m

/-- The `adapter.validate_python` boundary: a `ValueError` raised inside a
validator surfaces as a `ValidationError`. -/
def wrapVE : Except PyExc JVal → Except PyExc JVal
  | .error (.valueError m) => .error (.validationError m)
  | r => r

/-- The `except` dispatch of `_create_not_type.validate_not`, applied to
the outcome of the `try` block.  A successful inner validation raises the
marker `ValueError`, which the `except ValueError` clause re-raises; an
inner `ValidationError` means the value does not match, so it is
accepted; any other `ValueError` is accepted unless it carries the marker
text; other exception classes propagate. -/
def notDispatch (tried : Except PyExc JVal) (value : JVal) : Except PyExc JVal :=
  match tried with
  | .ok _ =>
    .error (.valueError ("Value should not satisfy the " ++ sq ++ "not" ++ sq
      ++ " schema but it does"))
  | .error (.validationError _) => .ok value
  | .error (.valueError m) =>
    if strContains m "should not satisfy" then .error (.valueError m) else .ok value
  | .error (.otherError m) => .error (.otherError m)

/-- `validate_not` over an abstract inner check (the closure over
`TypeAdapter(converted_type)` construction, rebuild and
`validate_python`). -/
def validate_not (inner : JVal → Except PyExc JVal) (value : JVal) : Except PyExc JVal :=
  notDispatch (inner value) value

/-- `validate_all` of `_create_intersection_type` over abstract per-branch
checks: each branch is validated in order, any exception is wrapped into
the `allOf` `ValueError`, and on success the original value is returned. -/
def validate_all (checks : List (JVal → Except PyExc JVal)) (value : JVal) :
    Except PyExc JVal :=
  match checks with
  | [] => .ok value
  | c :: rest =>
    match c value with
    | .ok _ => validate_all rest value
    | .error e =>
      .error (.valueError ("Value does not satisfy all schemas in allOf: " ++ e.msg))

/-- Decimal digits of a numeral, accumulated left to right (`none` until
the first digit, so an empty digit string is rejected). -/
def digitsToNat? : List Char → Option Nat → Option Nat
  | [], acc => acc
  | c :: cs, acc =>
    if c.isDigit then digitsToNat? cs (some ((acc.getD 0) * 10 + (c.toNat - 48)))
    else none

/-- Python `int(s)`-style parse (ASCII model, optional leading minus)
used by the lax string-to-integer coercion model. -/
def strToInt? (s : String) : Option Int :=
  match s.data with
  | '-' :: cs => (digitsToNat? cs none).map (fun n => -(n : Int))
  | cs => (digitsToNat? cs none).map (fun n => (n : Int))

/-- Base acceptance for integer/number targets in lax mode: integers pass
through, integer-numeral strings coerce, booleans are rejected (pydantic
v2 excludes them for numeric targets). -/
def validateIntLike (isInt : Bool) (v : JVal) : Except PyExc JVal :=
  let what := if isInt then "integer" else "number"
  match v with
  | .int _ => .ok v
  | .str s =>
    (match strToInt? s with
     | some n => .ok (.int n)
     | none => .error (.validationError ("Input should be a valid " ++ what)))
  | _ => .error (.validationError ("Input should be a valid " ++ what))

mutual

/-- Model of the host validator library (an external collaborator per the
specification) running a compiled type description on a value, in
pydantic's default lax mode.  The fragment exercised by the verified
properties (primitives, `const`, intersection, negation, union, lists,
tuples) is modelled faithfully; object models, enums/literals and
constraint checks get a simple plausible semantics (noted inline), and
regex patterns, float arithmetic and forward-reference rebinding are out
of the modelled fragment. -/
def validateP : PType → JVal → Except PyExc JVal
  | .anyT, v => .ok v
  | .strT, v =>
    (match v with
     | .str _ => .ok v
     | _ => .error (.validationError "Input should be a valid string"))
  | .strCon _ _ _, v =>
    -- length/pattern constraints are not modelled (unexercised)
    (match v with
     | .str _ => .ok v
     | _ => .error (.validationError "Input should be a valid string"))
  | .intT, v => validateIntLike true v
  | .floatT, v => validateIntLike false v
  | .numCon isInt _ _ _ _ _, v =>
    -- numeric bound checks are not modelled (unexercised)
    validateIntLike isInt v
  | .boolT, v =>
    (match v with
     | .bool _ => .ok v
     | _ => .error (.validationError "Input should be a valid boolean"))
  | .noneT, v =>
    (match v with
     | .null => .ok v
     | _ => .error (.validationError "Input should be None"))
  | .dictStrAny, v =>
    (match v with
     | .obj _ => .ok v
     | _ => .error (.validationError "Input should be a valid dictionary"))
  | .listOf t, v =>
    (match v with
     | .arr xs =>
       (match validateElems t xs with
        | .ok ys => .ok (.arr ys)
        | .error e => .error e)
     | _ => .error (.validationError "Input should be a valid list"))
  | .listCon t _ _, v =>
    -- length constraints are not modelled (unexercised)
    (match v with
     | .arr xs =>
       (match validateElems t xs with
        | .ok ys => .ok (.arr ys)
        | .error e => .error e)
     | _ => .error (.validationError "Input should be a valid list"))
  | .tupleOf ts, v =>
    (match v with
     | .arr xs =>
       (match validateTuple ts xs with
        | .ok ys => .ok (.arr ys)
        | .error e => .error e)
     | _ => .error (.validationError "Input should be a valid tuple"))
  | .objT _ _ fields, v =>
    -- simple object model: every field without a default must be present;
    -- per-field revalidation is not modelled (unexercised)
    (match v with
     | .obj entries =>
       if fields.all (fun f => f.2.2.1.isSome || hasKey entries f.1) then .ok v
       else .error (.validationError "Field required")
     | _ => .error (.validationError "Input should be a valid object"))
  | .enumT _ _ vals, v =>
    -- enum lookup is by value equality
    if vals.any (fun w => pyEq v w) then .ok v
    else .error (.validationError "Input should be a member of the enumeration")
  | .literalT vals, v =>
    if vals.any (fun w => pyEq v w) then .ok v
    else .error (.validationError "Input should be one of the literal values")
  | .rejectAll msg, _ => .error (.valueError msg)
  | .constT c, v =>
    if pyEq v c then .ok v
    else
      .error (.valueError ("Value must be exactly " ++ pyStr c ++ ", got " ++ pyStr v))
  | .unionT ts, v => validateUnion ts v
  | .intersectionT ts, v => validateAllBranches ts v
  | .negationT t, v => notDispatch (wrapVE (validateP t v)) v
  | .forwardRef _, _ =>
    -- reference rebinding happens outside the modelled runtime fragment
    .error (.validationError "unresolved forward reference in modelled fragment")
  | .optionalT t, v =>
    (match v with
     | .null => .ok v
     | _ => validateP t v)

/-- Elementwise validation of a homogeneous list. -/
def validateElems : PType → List JVal → Except PyExc (List JVal)
  | _, [] => .ok []
  | t, x :: xs =>
    match validateP t x with
    | .ok y =>
      (match validateElems t xs with
       | .ok ys => .ok (y :: ys)
       | .error e => .error e)
    | .error e => .error e

/-- Positionwise validation of a fixed tuple. -/
def validateTuple : List PType → List JVal → Except PyExc (List JVal)
  | [], [] => .ok []
  | t :: ts, x :: xs =>
    (match validateP t x with
     | .ok y =>
       (match validateTuple ts xs with
        | .ok ys => .ok (y :: ys)
        | .error e => .error e)
     | .error e => .error e)
  | _, _ => .error (.validationError "Tuple length mismatch")

/-- The runtime of `_create_intersection_type.validate_all`: each branch
is checked in order through its own adapter boundary, the first failure
is wrapped into the `allOf` `ValueError`, and success returns the
original value unchanged. -/
def validateAllBranches : List PType → JVal → Except PyExc JVal
  | [], value => .ok value
  | b :: rest, value =>
    match wrapVE (validateP b value) with
    | .ok _ => validateAllBranches rest value
    | .error e =>
      .error (.valueError ("Value does not satisfy all schemas in allOf: " ++ e.msg))

/-- Union validation: first branch that accepts wins (a model of
pydantic's left-to-right lax union; unexercised by the verified
properties). -/
def validateUnion : List PType → JVal → Except PyExc JVal
  | [], _ => .error (.validationError "Input does not match any union member")
  | t :: ts, v =>
    match validateP t v with
    | .ok y => .ok y
    | .error _ => validateUnion ts v

end

/-- The outer `TypeAdapter.validate_python` of the compiled root type. -/
def topValidate (t : PType) (v : JVal) : Except PyExc JVal :=
  wrapVE (validateP t v)

/-! ## Statement helpers -/

/-- The `required` list a branch contributes (empty when absent). -/
def reqOf (b : Obj) : List JVal :=
  match lookup? b "required" with
  | some (.arr xs) => xs
  | _ => []

/-- The `additionalProperties` value a branch declares, if any. -/
def apOf (b : Obj) : Option JVal := lookup? b "additionalProperties"

/-- Whether a branch's `properties` dict declares the name `p`. -/
def declaresProp (b : Obj) (p : String) : Bool :=
  match lookup? b "properties" with
  | some (.obj bp) => hasKey bp p
  | _ => false

/-- The declared type of property `p` inside a properties dict. -/
def propsPType (props : Obj) (p : String) : Option JVal :=
  match lookup? props p with
  | some (.obj e) => lookup? e "type"
  | _ => none

/-- The declared type of a branch's property `p`, if any. -/
def propTypeOf (b : Obj) (p : String) : Option JVal :=
  match lookup? b "properties" with
  | some (.obj entries) => propsPType entries p
  | _ => none

/-- The declared type recorded for `p` in the merge accumulator. -/
def stPType (st : MergeState) (p : String) : Option JVal :=
  propsPType st.props p

/-- First of two optional values. -/
def firstSome (x y : Option JVal) : Option JVal :=
  match x with
  | some t => some t
  | none => y

/-- The first declared type for property `p` across an ordered branch
list. -/
def firstDeclaredType : List Obj → String → Option JVal
  | [], _ => none
  | b :: bs, p => firstSome (propTypeOf b p) (firstDeclaredType bs p)

/-- Characters of an unremarkable definition path: lower-case ASCII
letters and the `/` separator. -/
def plainPathChar (c : Char) : Prop := ('a' ≤ c ∧ c ≤ 'z') ∨ c = '/'

instance (c : Char) : Decidable (plainPathChar c) :=
  inferInstanceAs (Decidable (('a' ≤ c ∧ c ≤ 'z') ∨ c = '/'))

/-- Action of `nsKey` on the first character of a path. -/
def headChar (c : Char) : Char := Char.toUpper (if c = '/' then '_' else c)

/-- Action of `nsKey` on every later character of a path. -/
def tailChar (c : Char) : Char := Char.toLower (if c = '/' then '_' else c)

/-- Character-level form of `nsKey`. -/
def nsKeyData : List Char → List Char
  | [] => []
  | c :: cs => headChar c :: cs.map tailChar

/-! ## Basic dictionary lemmas -/

theorem lookup?_setKey_self (d : Obj) (k : String) (v : JVal) :
    lookup? (setKey d k v) k = some v := by
  induction d with
  | nil => simp [setKey, lookup?]
  | cons kv rest ih =>
    obtain ⟨k', w⟩ := kv
    by_cases h : k' = k <;> simp [setKey, lookup?, h, ih]

theorem lookup?_setKey_other (d : Obj) (k k' : String) (v : JVal) (hne : k' ≠ k) :
    lookup? (setKey d k v) k' = lookup? d k' := by
  induction d with
  | nil => simp [setKey, lookup?, Ne.symm hne]
  | cons kv rest ih =>
    obtain ⟨k0, w⟩ := kv
    by_cases h : k0 = k
    · subst h
      simp [setKey, lookup?, Ne.symm hne, hne]
    · by_cases h' : k0 = k' <;> simp [setKey, lookup?, h, h', hne, ih]

theorem hasKey_setKey (d : Obj) (k k' : String) (v : JVal) :
    hasKey (setKey d k v) k' = (k' = k || hasKey d k') := by
  by_cases h : k' = k
  · subst h; simp [hasKey, lookup?_setKey_self]
  · simp [hasKey, lookup?_setKey_other d k k' v h, h]

theorem hasKey_iff_exists (d : Obj) (k : String) :
    hasKey d k = true ↔ ∃ v, (k, v) ∈ d := by
  induction d with
  | nil => simp [hasKey, lookup?]
  | cons kv rest ih =>
    obtain ⟨k0, w⟩ := kv
    by_cases h : k0 = k
    · subst h; simp [hasKey, lookup?]
    · simp only [hasKey, lookup?, if_neg h] at *
      rw [ih]
      constructor
      · rintro ⟨v, hv⟩; exact ⟨v, List.mem_cons_of_mem _ hv⟩
      · rintro ⟨v, hv⟩
        rcases List.mem_cons.mp hv with heq | hmem
        · cases heq; exact absurd rfl h
        · exact ⟨v, hmem⟩

/-! ## Runtime lemmas for the intersection path -/

theorem validateAllBranches_ok_of_all (v : JVal) :
    ∀ bs : List PType, (∀ b ∈ bs, ∃ r, wrapVE (validateP b v) = .ok r) →
      validateAllBranches bs v = .ok v := by
  intro bs
  induction bs with
  | nil => intro _; simp [validateAllBranches]
  | cons b rest ih =>
    intro h
    obtain ⟨r, hr⟩ := h b (List.mem_cons_self b rest)
    simp only [validateAllBranches, hr]
    exact ih (fun b' hb' => h b' (List.mem_cons_of_mem _ hb'))

theorem validateAllBranches_error_at (v : JVal) :
    ∀ (pre : List PType) (b : PType) (post : List PType) (e : PyExc),
      (∀ b' ∈ pre, ∃ r, wrapVE (validateP b' v) = .ok r) →
      wrapVE (validateP b v) = .error e →
      validateAllBranches (pre ++ b :: post) v
        = .error (.valueError ("Value does not satisfy all schemas in allOf: " ++ e.msg)) := by
  intro pre
  induction pre with
  | nil =>
    intro b post e _ he
    simp [validateAllBranches, he]
  | cons p rest ih =>
    intro b post e hpre he
    obtain ⟨r, hr⟩ := hpre p (List.mem_cons_self p rest)
    simp only [List.cons_append, validateAllBranches, hr]
    exact ih b post e (fun b' hb' => hpre b' (List.mem_cons_of_mem _ hb')) he

/-! ## Claim theorems -/

/-- C6: the schema `allOf: [{type: string}, {type: integer}]` compiles
without any compile-time error into a runtime intersection, and the
resulting validator raises a validation failure both for the string
input `"text"` and for the integer input `42`. -/
theorem primitive_allof_defers_to_runtime :
    create_type_adapter 10
      (.obj [("allOf", .arr [.obj [("type", .str "string")],
        .obj [("type", .str "integer")]])])
      = .ok (.intersectionT [.strT, .intT], [])
    ∧ (∃ m, topValidate (.intersectionT [.strT, .intT]) (.str "text")
        = .error (.validationError m))
    ∧ (∃ m, topValidate (.intersectionT [.strT, .intT]) (.int 42)
        = .error (.validationError m)) := by
  refine ⟨rfl,
    ⟨"Value does not satisfy all schemas in allOf: Input should be a valid integer", ?_⟩,
    ⟨"Value does not satisfy all schemas in allOf: Input should be a valid string", ?_⟩⟩
  · simp [topValidate, validateP, validateAllBranches, wrapVE, validateIntLike,
      strToInt?, digitsToNat?, PyExc.msg]
  · simp [topValidate, validateP, validateAllBranches, wrapVE, validateIntLike, PyExc.msg]

/-- C7: the schema `allOf: []` compiles to the empty intersection, whose
validator accepts every value and returns it unchanged. -/
theorem empty_allof_accepts_any :
    create_type_adapter 10 (.obj [("allOf", .arr [])]) = .ok (.intersectionT [], [])
    ∧ ∀ v, topValidate (.intersectionT []) v = .ok v := by
  refine ⟨rfl, fun v => ?_⟩
  simp [topValidate, validateP, validateAllBranches, wrapVE]

/-- C10: the compiled `const` validator accepts exactly the values that
compare equal to the constant under Python value equality; in particular
`const: 1` accepts `True` and `const: 0` accepts `False`. -/
theorem const_validator_value_equality :
    (∀ c v, topValidate (.constT c) v = .ok v ↔ pyEq v c = true)
    ∧ create_type_adapter 10 (.obj [("const", .int 1)]) = .ok (.constT (.int 1), [])
    ∧ topValidate (.constT (.int 1)) (.bool true) = .ok (.bool true)
    ∧ topValidate (.constT (.int 0)) (.bool false) = .ok (.bool false) := by
  refine ⟨fun c v => ?_, rfl, ?_, ?_⟩
  · by_cases h : pyEq v c <;> simp [topValidate, validateP, wrapVE, h]
  · simp [topValidate, validateP, wrapVE, pyEq]
  · simp [topValidate, validateP, wrapVE, pyEq]

/-- C4: the runtime intersection validates the candidate against every
compiled branch in order: if every branch accepts (possibly returning a
transformed value), the result is the original input unchanged; the first
branch that rejects aborts the check with its wrapped error. -/
theorem intersection_runtime_identity (branches : List PType) (v : JVal) :
    ((∀ b ∈ branches, ∃ r, wrapVE (validateP b v) = .ok r) →
      validateP (.intersectionT branches) v = .ok v)
    ∧ (∀ (pre : List PType) (b : PType) (post : List PType) (e : PyExc),
        branches = pre ++ b :: post →
        (∀ b' ∈ pre, ∃ r, wrapVE (validateP b' v) = .ok r) →
        wrapVE (validateP b v) = .error e →
        validateP (.intersectionT branches) v
          = .error (.valueError ("Value does not satisfy all schemas in allOf: "
              ++ e.msg))) := by
  constructor
  · intro h
    rw [show validateP (.intersectionT branches) v = validateAllBranches branches v
      from by simp [validateP]]
    exact validateAllBranches_ok_of_all v branches h
  · intro pre b post e hsplit hpre he
    rw [show validateP (.intersectionT branches) v = validateAllBranches branches v
      from by simp [validateP]]
    rw [hsplit]
    exact validateAllBranches_error_at v pre b post e hpre he

/-- C4 witness: a branch that coerces (integer target on the numeral
string) still leaves the intersection returning the original string, and
a rejecting branch aborts with the wrapped message. -/
theorem intersection_runtime_identity_witness :
    validateP (.intersectionT [.intT]) (.str "7") = .ok (.str "7")
    ∧ validateP (.intersectionT [.strT]) (.int 5)
      = .error (.valueError
          ("Value does not satisfy all schemas in allOf: Input should be a valid string")) := by
  constructor
  · exact (intersection_runtime_identity [.intT] (.str "7")).1 (by
      intro b hb
      simp only [List.mem_singleton] at hb
      subst hb
      exact ⟨.int 7, by simp [validateP, wrapVE, validateIntLike, strToInt?, digitsToNat?]⟩)
  · exact (intersection_runtime_identity [.strT] (.int 5)).2 [] .strT []
      (.validationError "Input should be a valid string") rfl (by simp)
      (by simp [validateP, wrapVE])

/-- C3 counterexample: a plain `ValueError` arising from the inner check
(the adapter construction/rebuild inside the closure, whose genuine
validation failures surface as `ValidationError`) is swallowed by the
`except ValueError` clause and the value is accepted, rather than the
error propagating to the caller as the claim states. -/
theorem not_swallows_internal_value_error_cex :
    validate_not (fun _ => .error (.valueError "TypeAdapter rebuild failed")) (.int 42)
      = .ok (.int 42) := by
  simp [validate_not, notDispatch, strContains]
  decide

/-- C3 amended: a value is accepted exactly when the inner check raises a
validation failure, a successful inner validation is itself a rejection
(the marker `ValueError`), and internal errors propagate except plain
`ValueError`s: an inner `ValueError` without the marker text is swallowed
as a non-match, one carrying it is re-raised.  The compiled negation
instantiates the abstract inner check with the branch adapter boundary. -/
theorem not_negation_semantics_amended
    (inner : JVal → Except PyExc JVal) (t : PType) (v : JVal) :
    (∀ r, inner v = .ok r → validate_not inner v
        = .error (.valueError ("Value should not satisfy the " ++ sq ++ "not" ++ sq
            ++ " schema but it does")))
    ∧ (∀ m, inner v = .error (.validationError m) → validate_not inner v = .ok v)
    ∧ (∀ m, inner v = .error (.otherError m) →
        validate_not inner v = .error (.otherError m))
    ∧ (∀ m, inner v = .error (.valueError m) →
        strContains m "should not satisfy" = false → validate_not inner v = .ok v)
    ∧ (∀ m, inner v = .error (.valueError m) →
        strContains m "should not satisfy" = true →
        validate_not inner v = .error (.valueError m))
    ∧ validateP (.negationT t) v = validate_not (fun u => wrapVE (validateP t u)) v := by
  refine ⟨?_, ?_, ?_, ?_, ?_, ?_⟩
  · intro r hr; simp [validate_not, notDispatch, hr]
  · intro m hm; simp [validate_not, notDispatch, hm]
  · intro m hm; simp [validate_not, notDispatch, hm]
  · intro m hm hmark; simp [validate_not, notDispatch, hm, hmark]
  · intro m hm hmark; simp [validate_not, notDispatch, hm, hmark]
  · simp [validate_not, validateP]

/-- C3 witness: the amended dispatch evaluated on concrete inner
outcomes. -/
theorem not_negation_semantics_amended_witness :
    validate_not (fun _ => .ok (.int 1)) (.int 1)
      = .error (.valueError ("Value should not satisfy the " ++ sq ++ "not" ++ sq
          ++ " schema but it does"))
    ∧ validate_not (fun _ => .error (.validationError "wrong type")) (.int 7) = .ok (.int 7)
    ∧ validate_not (fun _ => .error (.otherError "NameError")) (.int 7)
      = .error (.otherError "NameError") := by
  refine ⟨?_, ?_, ?_⟩
  · exact (not_negation_semantics_amended (fun _ => .ok (.int 1)) .anyT (.int 1)).1
      (.int 1) rfl
  · exact (not_negation_semantics_amended (fun _ => .error (.validationError "wrong type"))
      .anyT (.int 7)).2.1 "wrong type" rfl
  · exact (not_negation_semantics_amended (fun _ => .error (.otherError "NameError"))
      .anyT (.int 7)).2.2.1 "NameError" rfl

/-- C8: the compiler's dispatch over one fragment is first-match-wins in
the order `$ref`, `allOf`, `anyOf`, `oneOf`, `not`, `const`,
`enum`-without-`type`, `type`: a fragment containing `$ref` compiles to a
forward reference whatever else it contains, a fragment without `$ref`
containing `allOf` gets the intersection handling whatever else it
contains, and so on down the precedence list. -/
theorem dispatch_first_match_precedence (fuel : Nat) (prop : Obj) :
    (∀ r, lookup? prop "$ref" = some (.str r) →
      convert_type (fuel + 1) prop = .ok (.forwardRef (resolve_ref_path r)))
    ∧ (∀ subs, lookup? prop "$ref" = none →
        lookup? prop "allOf" = some (.arr subs) →
        convert_type (fuel + 1) prop
          = (match compileList (convert_type fuel) subs with
             | .ok ts => .ok (.intersectionT ts)
             | .error e => .error e))
    ∧ (∀ subs, lookup? prop "$ref" = none → lookup? prop "allOf" = none →
        lookup? prop "anyOf" = some (.arr subs) →
        convert_type (fuel + 1) prop
          = (match compileList (convert_type fuel) subs with
             | .ok ts => .ok (.unionT ts)
             | .error e => .error e))
    ∧ (∀ subs, lookup? prop "$ref" = none → lookup? prop "allOf" = none →
        lookup? prop "anyOf" = none → lookup? prop "oneOf" = some (.arr subs) →
        convert_type (fuel + 1) prop
          = (match compileList (convert_type fuel) subs with
             | .ok ts => .ok (.unionT ts)
             | .error e => .error e))
    ∧ (∀ s, lookup? prop "$ref" = none → lookup? prop "allOf" = none →
        lookup? prop "anyOf" = none → lookup? prop "oneOf" = none →
        lookup? prop "not" = some (.obj s) →
        convert_type (fuel + 1) prop
          = (match convert_type fuel s with
             | .ok t => .ok (.negationT t)
             | .error e => .error e))
    ∧ (∀ c, lookup? prop "$ref" = none → lookup? prop "allOf" = none →
        lookup? prop "anyOf" = none → lookup? prop "oneOf" = none →
        lookup? prop "not" = none → lookup? prop "const" = some c →
        convert_type (fuel + 1) prop = .ok (.constT c))
    ∧ (∀ vals, lookup? prop "$ref" = none → lookup? prop "allOf" = none →
        lookup? prop "anyOf" = none → lookup? prop "oneOf" = none →
        lookup? prop "not" = none → lookup? prop "const" = none →
        lookup? prop "enum" = some (.arr vals) → lookup? prop "type" = none →
        convert_type (fuel + 1) prop = .ok (enumNoType vals (lookup? prop "title")))
    ∧ (∀ t, lookup? prop "$ref" = none → lookup? prop "allOf" = none →
        lookup? prop "anyOf" = none → lookup? prop "oneOf" = none →
        lookup? prop "not" = none → lookup? prop "const" = none →
        lookup? prop "enum" = none → lookup? prop "type" = some t →
        convert_type (fuel + 1) prop = typeBranch (convert_type fuel) prop t) := by
  refine ⟨?_, ?_, ?_, ?_, ?_, ?_, ?_, ?_⟩
  · intro r h1; simp [convert_type, h1]
  · intro subs h1 h2; simp [convert_type, h1, h2]
  · intro subs h1 h2 h3; simp [convert_type, h1, h2, h3]
  · intro subs h1 h2 h3 h4; simp [convert_type, h1, h2, h3, h4]
  · intro s h1 h2 h3 h4 h5; simp [convert_type, h1, h2, h3, h4, h5]
  · intro c h1 h2 h3 h4 h5 h6; simp [convert_type, h1, h2, h3, h4, h5, h6]
  · intro vals h1 h2 h3 h4 h5 h6 h7 h8
    simp [convert_type, h1, h2, h3, h4, h5, h6, h7, h8]
  · intro t h1 h2 h3 h4 h5 h6 h7 h8
    simp [convert_type, h1, h2, h3, h4, h5, h6, h7, h8, hasKey]

/-- C8 witness: `$ref` beats a present `allOf`; `allOf` beats a present
`anyOf`. -/
theorem dispatch_first_match_precedence_witness :
    convert_type 5 [("$ref", .str "#/$defs/A"), ("allOf", .arr [])]
      = .ok (.forwardRef "A")
    ∧ convert_type 5 [("allOf", .arr []), ("anyOf", .arr [.obj []])]
      = .ok (.intersectionT []) := by
  constructor
  · have h := (dispatch_first_match_precedence 4
      [("$ref", .str "#/$defs/A"), ("allOf", .arr [])]).1 "#/$defs/A" rfl
    rwa [show resolve_ref_path "#/$defs/A" = "A" by decide] at h
  · simpa using (dispatch_first_match_precedence 4
      [("allOf", .arr []), ("anyOf", .arr [.obj []])]).2.1 [] rfl rfl

/-! ## Object field construction (C9) -/

theorem buildFields_mem (go : Obj → Except CompErr PType) (reqs : List JVal) :
    ∀ (props : List (String × JVal)) fields,
      buildFields go reqs props = .ok fields →
      ∀ name ps, (name, JVal.obj ps) ∈ props →
        ∃ ct, go ps = .ok ct
          ∧ (hasKey ps "default" = true →
              (name, ct, lookup? ps "default", lookup? ps "description",
                lookup? ps "title") ∈ fields)
          ∧ (hasKey ps "default" = false →
              reqs.any (fun r => pyEq (.str name) r) = true →
              (name, ct, none, lookup? ps "description", lookup? ps "title") ∈ fields)
          ∧ (hasKey ps "default" = false →
              reqs.any (fun r => pyEq (.str name) r) = false →
              (name, PType.optionalT ct, some JVal.null, lookup? ps "description",
                lookup? ps "title") ∈ fields) := by
  intro props
  induction props with
  | nil =>
    intro fields _ name ps hmem
    exact absurd hmem (List.not_mem_nil _)
  | cons hd rest ih =>
    intro fields hok name ps hmem
    obtain ⟨n0, v0⟩ := hd
    cases v0 with
    | obj property =>
      rw [buildFields] at hok
      cases hgo : go property with
      | error e => rw [hgo] at hok; exact absurd hok (by simp)
      | ok pt =>
        rw [hgo] at hok
        cases hbf : buildFields go reqs rest with
        | error e => simp [hbf] at hok
        | ok fields' =>
          simp only [hbf] at hok
          injection hok with hok
          subst hok
          rcases List.mem_cons.mp hmem with heq | hmem'
          · obtain ⟨hn, hv⟩ := Prod.mk.injEq .. ▸ heq
            injection hv with hv
            subst hn; subst hv
            refine ⟨pt, hgo, ?_, ?_, ?_⟩
            · intro hdef
              simp only [hdef, if_true]
              exact List.mem_cons_self _ _
            · intro hdef hlisted
              simp only [hdef, hlisted]
              simp
            · intro hdef hlisted
              simp only [hdef, hlisted]
              simp
          · obtain ⟨ct, hct, hA, hB, hC⟩ := ih fields' hbf name ps hmem'
            exact ⟨ct, hct, fun h => List.mem_cons_of_mem _ (hA h),
              fun h h' => List.mem_cons_of_mem _ (hB h h'),
              fun h h' => List.mem_cons_of_mem _ (hC h h')⟩
    | null => simp [buildFields] at hok
    | bool b => simp [buildFields] at hok
    | int n => simp [buildFields] at hok
    | str s => simp [buildFields] at hok
    | arr xs => simp [buildFields] at hok

/-- C9: when compiling an object schema's properties, a property carrying
an explicit default keeps that default (and so is effectively optional at
runtime) even when listed in `required`; a property listed in `required`
without a default is compiled with no default (required); and a property
neither required nor defaulted is wrapped `Optional` with a null
default. -/
theorem object_field_requiredness_policy (fuel : Nat) (prop : Obj)
    (props : List (String × JVal)) (reqs : List JVal) (pt : PType)
    (hprops : lookup? prop "properties" = some (.obj props))
    (hreq : lookup? prop "required" = some (.arr reqs)
            ∨ (lookup? prop "required" = none ∧ reqs = []))
    (hok : objectBranch (convert_type fuel) prop = .ok pt) :
    ∃ title descr fields, pt = .objT title descr fields
      ∧ ∀ name ps, (name, JVal.obj ps) ∈ props →
        ∃ ct, convert_type fuel ps = .ok ct
          ∧ (hasKey ps "default" = true →
              lookup? ps "default" ≠ none ∧
              (name, ct, lookup? ps "default", lookup? ps "description",
                lookup? ps "title") ∈ fields)
          ∧ (hasKey ps "default" = false →
              reqs.any (fun r => pyEq (.str name) r) = true →
              (name, ct, none, lookup? ps "description", lookup? ps "title") ∈ fields)
          ∧ (hasKey ps "default" = false →
              reqs.any (fun r => pyEq (.str name) r) = false →
              (name, PType.optionalT ct, some JVal.null, lookup? ps "description",
                lookup? ps "title") ∈ fields) := by
  have hreq' : (match lookup? prop "required" with
      | none => Except.ok ([] : List JVal)
      | some (.arr xs) => Except.ok xs
      | some _ => Except.error (CompErr.typeError "required is not a list"))
      = Except.ok reqs := by
    rcases hreq with h | ⟨h, rfl⟩ <;> rw [h]
  simp only [objectBranch, hprops, hreq'] at hok
  cases hbf : buildFields (convert_type fuel) reqs props with
  | error e =>
    simp only [hbf] at hok
    exact absurd hok (by simp)
  | ok fields =>
    simp only [hbf] at hok
    injection hok with hok
    refine ⟨_, _, fields, hok.symm, ?_⟩
    intro name ps hmem
    obtain ⟨ct, hct, hA, hB, hC⟩ := buildFields_mem (convert_type fuel) reqs props
      fields hbf name ps hmem
    refine ⟨ct, hct, ?_, hB, hC⟩
    intro hdef
    refine ⟨?_, hA hdef⟩
    simpa [hasKey, Option.isSome_iff_ne_none] using hdef

/-- C9 witness: a defaulted-and-required property stays defaulted, a
required property without default gets none, and an unlisted one is
optional with a null default. -/
theorem object_field_requiredness_policy_witness :
    ∃ title descr fields,
      (PType.objT none none
        [("p1", PType.intT, some (JVal.int 5), none, none),
         ("p2", PType.intT, none, none, none),
         ("p3", PType.optionalT PType.intT, some JVal.null, none, none)])
        = PType.objT title descr fields
      ∧ ∀ name ps, (name, JVal.obj ps) ∈
          ([("p1", JVal.obj [("type", .str "integer"), ("default", JVal.int 5)]),
            ("p2", JVal.obj [("type", .str "integer")]),
            ("p3", JVal.obj [("type", .str "integer")])] : List (String × JVal)) →
        ∃ ct, convert_type 9 ps = .ok ct
          ∧ (hasKey ps "default" = true →
              lookup? ps "default" ≠ none ∧
              (name, ct, lookup? ps "default", lookup? ps "description",
                lookup? ps "title") ∈ fields)
          ∧ (hasKey ps "default" = false →
              ([JVal.str "p1", JVal.str "p2"] : List JVal).any
                  (fun r => pyEq (.str name) r) = true →
              (name, ct, none, lookup? ps "description", lookup? ps "title") ∈ fields)
          ∧ (hasKey ps "default" = false →
              ([JVal.str "p1", JVal.str "p2"] : List JVal).any
                  (fun r => pyEq (.str name) r) = false →
              (name, PType.optionalT ct, some JVal.null, lookup? ps "description",
                lookup? ps "title") ∈ fields) :=
  object_field_requiredness_policy 9
    [("type", .str "object"),
     ("properties", .obj
       [("p1", JVal.obj [("type", .str "integer"), ("default", JVal.int 5)]),
        ("p2", JVal.obj [("type", .str "integer")]),
        ("p3", JVal.obj [("type", .str "integer")])]),
     ("required", .arr [JVal.str "p1", JVal.str "p2"])]
    [("p1", JVal.obj [("type", .str "integer"), ("default", JVal.int 5)]),
     ("p2", JVal.obj [("type", .str "integer")]),
     ("p3", JVal.obj [("type", .str "integer")])]
    [JVal.str "p1", JVal.str "p2"]
    (PType.objT none none
      [("p1", PType.intT, some (JVal.int 5), none, none),
       ("p2", PType.intT, none, none, none),
       ("p3", PType.optionalT PType.intT, some JVal.null, none, none)])
    rfl (Or.inl rfl) rfl

/-! ## Namespace key properties (C5) -/

theorem char_eq_of_toNat_eq {c d : Char} (h : c.toNat = d.toNat) : c = d := by
  apply Char.eq_of_val_eq
  apply UInt32.eq_of_toBitVec_eq
  exact BitVec.toNat_injective h

theorem toNat_le_of_le {c d : Char} (h : c ≤ d) : c.toNat ≤ d.toNat := by
  rw [Char.le_def, UInt32.le_def, BitVec.le_def] at h
  exact h

theorem toNat_ofNat_of_valid (n : Nat) (h : n.isValidChar) : (Char.ofNat n).toNat = n := by
  unfold Char.ofNat
  rw [dif_pos h]
  rfl

theorem lower_toNat {c : Char} (h : 'a' ≤ c ∧ c ≤ 'z') :
    97 ≤ c.toNat ∧ c.toNat ≤ 122 := by
  have h1 := toNat_le_of_le h.1
  have h2 := toNat_le_of_le h.2
  constructor
  · simpa using h1
  · simpa using h2

theorem toUpper_toNat_of_lower {c : Char} (h1 : 97 ≤ c.toNat) (h2 : c.toNat ≤ 122) :
    (Char.toUpper c).toNat = c.toNat - 32 := by
  unfold Char.toUpper
  rw [if_pos ⟨h1, h2⟩]
  exact toNat_ofNat_of_valid _ (Or.inl (by omega))

theorem toLower_of_lower {c : Char} (h1 : 97 ≤ c.toNat) : Char.toLower c = c := by
  unfold Char.toLower
  rw [if_neg (by omega : ¬(c.toNat ≥ 65 ∧ c.toNat ≤ 90))]

theorem ne_slash_of_lower {c : Char} (h : 'a' ≤ c ∧ c ≤ 'z') : c ≠ '/' := by
  intro e
  subst e
  have := (lower_toNat h).1
  exact absurd this (by decide)

theorem headChar_lower {c : Char} (h : 'a' ≤ c ∧ c ≤ 'z') :
    (headChar c).toNat = c.toNat - 32 := by
  have hn := lower_toNat h
  unfold headChar
  rw [if_neg (ne_slash_of_lower h)]
  exact toUpper_toNat_of_lower hn.1 hn.2

theorem tailChar_lower {c : Char} (h : 'a' ≤ c ∧ c ≤ 'z') : tailChar c = c := by
  have hn := lower_toNat h
  unfold tailChar
  rw [if_neg (ne_slash_of_lower h)]
  exact toLower_of_lower hn.1

theorem headChar_inj {c d : Char} (hc : plainPathChar c) (hd : plainPathChar d)
    (h : headChar c = headChar d) : c = d := by
  have h95 : (headChar '/').toNat = 95 := by decide
  rcases hc with hcl | rfl <;> rcases hd with hdl | rfl
  · have h1 := headChar_lower hcl
    have h2 := headChar_lower hdl
    have hn1 := lower_toNat hcl
    have hn2 := lower_toNat hdl
    have hcongr := congrArg Char.toNat h
    rw [h1, h2] at hcongr
    exact char_eq_of_toNat_eq (by omega)
  · have h1 := headChar_lower hcl
    have hn1 := lower_toNat hcl
    have hcongr := congrArg Char.toNat h
    rw [h1, h95] at hcongr
    omega
  · have h1 := headChar_lower hdl
    have hn1 := lower_toNat hdl
    have hcongr := congrArg Char.toNat h
    rw [h1, h95] at hcongr
    omega
  · rfl

theorem tailChar_inj {c d : Char} (hc : plainPathChar c) (hd : plainPathChar d)
    (h : tailChar c = tailChar d) : c = d := by
  have h95 : (tailChar '/').toNat = 95 := by decide
  rcases hc with hcl | rfl <;> rcases hd with hdl | rfl
  · rwa [tailChar_lower hcl, tailChar_lower hdl] at h
  · rw [tailChar_lower hcl] at h
    have hn1 := lower_toNat hcl
    have hcongr := congrArg Char.toNat h
    rw [h95] at hcongr
    omega
  · rw [tailChar_lower hdl] at h
    have hn1 := lower_toNat hdl
    have hcongr := congrArg Char.toNat h
    rw [h95] at hcongr
    omega
  · rfl

theorem map_tailChar_inj :
    ∀ (cs ds : List Char), (∀ c ∈ cs, plainPathChar c) → (∀ c ∈ ds, plainPathChar c) →
      cs.map tailChar = ds.map tailChar → cs = ds := by
  intro cs
  induction cs with
  | nil =>
    intro ds _ _ h
    cases ds with
    | nil => rfl
    | cons d ds => simp at h
  | cons c cs ih =>
    intro ds hc hd h
    cases ds with
    | nil => simp at h
    | cons d ds =>
      simp only [List.map_cons, List.cons.injEq] at h
      have hcd := tailChar_inj (hc c (List.mem_cons_self c cs))
        (hd d (List.mem_cons_self d ds)) h.1
      have hrest := ih ds (fun x hx => hc x (List.mem_cons_of_mem _ hx))
        (fun x hx => hd x (List.mem_cons_of_mem _ hx)) h.2
      rw [hcd, hrest]

theorem nsKey_data (p : String) : (nsKey p).data = nsKeyData p.data := by
  unfold nsKey pyReplaceSlash pyCapitalize nsKeyData
  cases hd : p.data with
  | nil => simp
  | cons c cs =>
    simp only [hd, List.map_cons, List.map_map]
    rfl

/-- C5 counterexample: the definition paths `a_b` (a top-level definition
named `a_b`) and `a/b` (a definition `b` nested inside `a`) are distinct
source paths of structurally distinct definitions, yet the namespace key
derivation assigns both the key `A_b`. -/
theorem namespace_key_collision_cex :
    collect_definitions 10
      [("$defs", .obj [("a_b", .obj [("type", .str "string")]),
        ("a", .obj [("$defs", .obj [("b", .obj [("type", .str "integer")])])])])] ""
      = .ok [("a_b", .obj [("type", .str "string")]),
             ("a", .obj [("$defs", .obj [("b", .obj [("type", .str "integer")])])]),
             ("a/b", .obj [("type", .str "integer")])]
    ∧ nsKey "a_b" = nsKey "a/b"
    ∧ "a_b" ≠ "a/b"
    ∧ JVal.obj [("type", .str "string")] ≠ JVal.obj [("type", .str "integer")] := by
  refine ⟨rfl, by decide, by decide, by simp⟩

/-- C5 amended (corrected): namespace keys are derived deterministically
from the source path alone, and on paths made of lower-case letters and
`/` separators (no underscores, no upper-case beyond lower-case input)
the derivation is injective, so two such distinct paths never collide;
outside that alphabet the normalization can identify distinct paths, as
the counterexample shows. -/
theorem namespace_key_determinism_amended (p q : String)
    (hp : ∀ c ∈ p.data, plainPathChar c) (hq : ∀ c ∈ q.data, plainPathChar c) :
    nsKey p = nsKey q ↔ p = q := by
  constructor
  · intro h
    have hdata : nsKeyData p.data = nsKeyData q.data := by
      rw [← nsKey_data, ← nsKey_data, h]
    have hpq : p.data = q.data := by
      cases hp' : p.data with
      | nil =>
        cases hq' : q.data with
        | nil => rfl
        | cons d ds => rw [hp', hq'] at hdata; simp [nsKeyData] at hdata
      | cons c cs =>
        cases hq' : q.data with
        | nil => rw [hp', hq'] at hdata; simp [nsKeyData] at hdata
        | cons d ds =>
          rw [hp', hq'] at hdata
          simp only [nsKeyData, List.cons.injEq] at hdata
          rw [hp'] at hp
          rw [hq'] at hq
          have hcd := headChar_inj (hp c (List.mem_cons_self c cs))
            (hq d (List.mem_cons_self d ds)) hdata.1
          have hrest := map_tailChar_inj cs ds
            (fun x hx => hp x (List.mem_cons_of_mem _ hx))
            (fun x hx => hq x (List.mem_cons_of_mem _ hx)) hdata.2
          rw [hcd, hrest]
    exact congrArg String.mk hpq
  · intro h
    rw [h]

/-- C5 witness: on plain lower-case slash-separated paths the key map is
injective, so distinct paths get distinct keys. -/
theorem namespace_key_determinism_amended_witness :
    nsKey "node/left" ≠ nsKey "node/right" := by
  intro h
  have := (namespace_key_determinism_amended "node/left" "node/right"
    (by decide) (by decide)).mp h
  exact absurd this (by decide)

/-! ## Merge fold lemmas (C1, C2) -/

theorem lookup?_eq_none_of_forall (d : Obj) (k : String)
    (h : ∀ e ∈ d, e.1 ≠ k) : lookup? d k = none := by
  induction d with
  | nil => rfl
  | cons e rest ih =>
    obtain ⟨k0, v⟩ := e
    have hk0 : k0 ≠ k := h (k0, v) (List.mem_cons_self _ _)
    simp only [lookup?, if_neg hk0]
    exact ih (fun e he => h e (List.mem_cons_of_mem _ he))

theorem metaStep_lookup_type_of_ne (ps ex : Obj) (k : String) (hk : k ≠ "type") :
    lookup? (metaStep ps ex k) "type" = lookup? ex "type" := by
  unfold metaStep
  cases hpk : lookup? ps k with
  | none => rfl
  | some v =>
    by_cases hh : hasKey ex k = true
    · simp [hh]
    · simp only [hh, if_false, Bool.false_eq_true]
      exact lookup?_setKey_other ex k "type" v (Ne.symm hk)

theorem metaStep_lookup_type (ps e : Obj) :
    lookup? (metaStep ps e "type") "type"
      = firstSome (lookup? e "type") (lookup? ps "type") := by
  unfold metaStep
  cases hpt : lookup? ps "type" with
  | none => cases h : lookup? e "type" <;> simp [firstSome]
  | some v =>
    by_cases hh : hasKey e "type" = true
    · simp only [hh, if_true]
      obtain ⟨t, ht⟩ : ∃ t, lookup? e "type" = some t := by
        unfold hasKey at hh
        exact Option.isSome_iff_exists.mp hh
      rw [ht]
      simp [firstSome]
    · simp only [hh, if_false, Bool.false_eq_true]
      have hnone : lookup? e "type" = none := by
        unfold hasKey at hh
        cases h' : lookup? e "type" with
        | none => rfl
        | some t => rw [h'] at hh; simp at hh
      rw [lookup?_setKey_self, hnone]
      simp [firstSome]

theorem mergeMeta_lookup_type (ex ps : Obj) :
    lookup? (mergeMeta ex ps) "type"
      = firstSome (lookup? ex "type") (lookup? ps "type") := by
  unfold mergeMeta
  simp only [List.foldl_cons, List.foldl_nil]
  rw [metaStep_lookup_type,
    metaStep_lookup_type_of_ne ps _ "default" (by decide),
    metaStep_lookup_type_of_ne ps _ "description" (by decide),
    metaStep_lookup_type_of_ne ps _ "title" (by decide)]

theorem propsPType_setKey_other (props : Obj) (p n0 : String) (v : JVal)
    (h : n0 ≠ p) : propsPType (setKey props n0 v) p = propsPType props p := by
  unfold propsPType
  rw [lookup?_setKey_other props n0 p v (Ne.symm h)]

theorem mergePropEntries_hasKey :
    ∀ (entries : List (String × JVal)) (props props' : Obj),
      mergePropEntries props entries = .ok props' →
      ∀ name, hasKey props' name = (hasKey props name || hasKey entries name) := by
  intro entries
  induction entries with
  | nil =>
    intro props props' h name
    simp only [mergePropEntries] at h
    injection h with h
    subst h
    simp [hasKey, lookup?]
  | cons e rest ih =>
    intro props props' h name
    obtain ⟨n0, v0⟩ := e
    cases v0 with
    | obj ps =>
      rw [mergePropEntries] at h
      cases hl : lookup? props n0 with
      | none =>
        simp only [hl] at h
        rw [ih _ _ h name, hasKey_setKey]
        by_cases hx : n0 = name
        · subst hx; simp [hasKey, lookup?]
        · simp [hasKey, lookup?, hx, Ne.symm hx, Bool.or_assoc]
      | some val =>
        cases val with
        | obj existing =>
          simp only [hl] at h
          cases hmp : mergePropEntry n0 existing ps with
          | error e2 => simp only [hmp] at h; simp at h
          | ok merged =>
            simp only [hmp] at h
            rw [ih _ _ h name, hasKey_setKey]
            by_cases hx : n0 = name
            · subst hx; simp [hasKey, lookup?, hl]
            · simp [hasKey, lookup?, hx, Ne.symm hx, Bool.or_assoc]
        | null => simp only [hl] at h; simp at h
        | bool b => simp only [hl] at h; simp at h
        | int n => simp only [hl] at h; simp at h
        | str s => simp only [hl] at h; simp at h
        | arr xs => simp only [hl] at h; simp at h
    | null => simp [mergePropEntries] at h
    | bool b => simp [mergePropEntries] at h
    | int n => simp [mergePropEntries] at h
    | str s => simp [mergePropEntries] at h
    | arr xs => simp [mergePropEntries] at h

theorem mergePropEntries_ptype :
    ∀ (entries : List (String × JVal)) (props props' : Obj),
      mergePropEntries props entries = .ok props' →
      (entries.map Prod.fst).Nodup →
      ∀ p, propsPType props' p
        = firstSome (propsPType props p) (propsPType entries p) := by
  intro entries
  induction entries with
  | nil =>
    intro props props' h _ p
    simp only [mergePropEntries] at h
    injection h with h
    subst h
    cases hx : propsPType props p <;> simp [propsPType, lookup?, firstSome, hx]
  | cons e rest ih =>
    intro props props' h hnodup p
    obtain ⟨n0, v0⟩ := e
    have hnodup' : (rest.map Prod.fst).Nodup := (List.nodup_cons.mp hnodup).2
    cases v0 with
    | obj ps =>
      rw [mergePropEntries] at h
      by_cases hx : n0 = p
      · subst hx
        have hnotin : ∀ e ∈ rest, e.1 ≠ n0 := by
          intro e he heq
          have hmm : e.1 ∈ rest.map Prod.fst := List.mem_map_of_mem Prod.fst he
          rw [heq] at hmm
          exact (List.nodup_cons.mp hnodup).1 hmm
        have hrestnone : propsPType rest n0 = none := by
          unfold propsPType
          rw [lookup?_eq_none_of_forall rest n0 hnotin]
        cases hl : lookup? props n0 with
        | none =>
          simp only [hl] at h
          rw [ih _ _ h hnodup' n0, hrestnone]
          simp only [propsPType, lookup?_setKey_self, lookup?, if_pos rfl, hl]
          cases hps : lookup? ps "type" <;> simp [firstSome, hps]
        | some val =>
          cases val with
          | obj existing =>
            simp only [hl] at h
            cases hmp : mergePropEntry n0 existing ps with
            | error e2 => simp only [hmp] at h; simp at h
            | ok merged =>
              simp only [hmp] at h
              have hmerged : merged = mergeMeta existing ps := by
                unfold mergePropEntry at hmp
                by_cases hcond : (pyTruthyOpt (lookup? existing "type")
                    && pyTruthyOpt (lookup? ps "type")
                    && !pyEq ((lookup? existing "type").getD .null)
                        ((lookup? ps "type").getD .null)) = true
                · rw [if_pos hcond] at hmp; simp at hmp
                · rw [if_neg hcond] at hmp; injection hmp with hmp; exact hmp.symm
              rw [ih _ _ h hnodup' n0, hrestnone]
              simp only [propsPType, lookup?_setKey_self, lookup?, if_pos rfl, hl,
                hmerged, mergeMeta_lookup_type]
              cases he : lookup? existing "type" <;>
                cases hps : lookup? ps "type" <;> simp [firstSome, he, hps]
          | null => simp only [hl] at h; simp at h
          | bool b => simp only [hl] at h; simp at h
          | int n => simp only [hl] at h; simp at h
          | str s => simp only [hl] at h; simp at h
          | arr xs => simp only [hl] at h; simp at h
      · have hskip : propsPType ((n0, JVal.obj ps) :: rest) p = propsPType rest p := by
          simp [propsPType, lookup?, hx]
        cases hl : lookup? props n0 with
        | none =>
          simp only [hl] at h
          rw [ih _ _ h hnodup' p, propsPType_setKey_other props p n0 _ hx, hskip]
        | some val =>
          cases val with
          | obj existing =>
            simp only [hl] at h
            cases hmp : mergePropEntry n0 existing ps with
            | error e2 => simp only [hmp] at h; simp at h
            | ok merged =>
              simp only [hmp] at h
              rw [ih _ _ h hnodup' p, propsPType_setKey_other props p n0 _ hx, hskip]
          | null => simp only [hl] at h; simp at h
          | bool b => simp only [hl] at h; simp at h
          | int n => simp only [hl] at h; simp at h
          | str s => simp only [hl] at h; simp at h
          | arr xs => simp only [hl] at h; simp at h
    | null => simp [mergePropEntries] at h
    | bool b => simp [mergePropEntries] at h
    | int n => simp [mergePropEntries] at h
    | str s => simp [mergePropEntries] at h
    | arr xs => simp [mergePropEntries] at h

theorem mergePropEntries_conflict :
    ∀ (entries : List (String × JVal)) (props : Obj) (p : String) (t t' : JVal),
      propsPType props p = some t → pyTruthy t = true →
      propsPType entries p = some t' → pyTruthy t' = true →
      pyEq t t' = false →
      ∃ e, mergePropEntries props entries = .error e := by
  intro entries
  induction entries with
  | nil =>
    intro props p t t' _ _ ht' _ _
    simp [propsPType, lookup?] at ht'
  | cons e rest ih =>
    intro props p t t' ht htt ht' htt' hne
    obtain ⟨n0, v0⟩ := e
    cases v0 with
    | obj ps =>
      rw [mergePropEntries]
      by_cases hx : n0 = p
      · subst hx
        have hps : lookup? ps "type" = some t' := by
          simpa [propsPType, lookup?] using ht'
        have hobj : ∃ existing, lookup? props n0 = some (.obj existing)
            ∧ lookup? existing "type" = some t := by
          unfold propsPType at ht
          cases hl : lookup? props n0 with
          | none => rw [hl] at ht; simp at ht
          | some val =>
            cases val <;> rw [hl] at ht <;> first
              | (exact ⟨_, rfl, ht⟩)
              | simp at ht
        obtain ⟨existing, hl, hexty⟩ := hobj
        have hmp : mergePropEntry n0 existing ps = .error
            ("Incompatible types for property " ++ sq ++ n0 ++ sq
              ++ " in allOf: " ++ sq ++ pyStr t ++ sq
              ++ " vs " ++ sq ++ pyStr t' ++ sq) := by
          unfold mergePropEntry
          rw [hexty, hps]
          simp [pyTruthyOpt, htt, htt', hne]
        simp only [hl, hmp]
        exact ⟨_, rfl⟩
      · have ht'' : propsPType rest p = some t' := by
          simpa [propsPType, lookup?, hx] using ht'
        cases hl : lookup? props n0 with
        | none =>
          simp only [hl]
          exact ih (setKey props n0 (.obj ps)) p t t'
            (by rw [propsPType_setKey_other props p n0 _ hx]; exact ht)
            htt ht'' htt' hne
        | some val =>
          cases val with
          | obj existing =>
            simp only [hl]
            cases hmp : mergePropEntry n0 existing ps with
            | error e2 => simp only [hmp]; exact ⟨e2, rfl⟩
            | ok merged =>
              simp only [hmp]
              exact ih (setKey props n0 (.obj merged)) p t t'
                (by rw [propsPType_setKey_other props p n0 _ hx]; exact ht)
                htt ht'' htt' hne
          | null => simp only [hl]; exact ⟨_, rfl⟩
          | bool b => simp only [hl]; exact ⟨_, rfl⟩
          | int n => simp only [hl]; exact ⟨_, rfl⟩
          | str s => simp only [hl]; exact ⟨_, rfl⟩
          | arr xs => simp only [hl]; exact ⟨_, rfl⟩
    | null => exact ⟨_, rfl⟩
    | bool b => exact ⟨_, rfl⟩
    | int n => exact ⟨_, rfl⟩
    | str s => exact ⟨_, rfl⟩
    | arr xs => exact ⟨_, rfl⟩

theorem mergeBranch_ok_parts {st : MergeState} {b : Obj} {st' : MergeState}
    (h : mergeBranch st b = .ok st') :
    st'.required = st.required ++ reqOf b
    ∧ st'.addProps = apStep st.addProps (apOf b)
    ∧ ((lookup? b "properties" = none ∧ st'.props = st.props)
       ∨ ∃ entries, lookup? b "properties" = some (.obj entries)
           ∧ mergePropEntries st.props entries = .ok st'.props) := by
  have hcore : mergeBranchCore st b = .ok st' := by
    unfold mergeBranch at h
    cases hT : lookup? b "type" with
    | none => simp only [hT] at h; exact h
    | some t =>
      simp only [hT] at h
      by_cases hP : (!pyEq t (.str "object")) = true
      · rw [if_pos hP] at h; exact absurd h (by simp)
      · rw [if_neg hP] at h; exact h
  clear h
  simp only [mergeBranchCore] at hcore
  cases hP : lookup? b "properties" with
  | none =>
    simp only [hP] at hcore
    cases hR : lookup? b "required" with
    | none =>
      simp only [hR] at hcore
      injection hcore with hcore
      subst hcore
      exact ⟨by simp [reqOf, hR], rfl, Or.inl ⟨rfl, rfl⟩⟩
    | some val =>
      cases val with
      | arr xs =>
        simp only [hR] at hcore
        injection hcore with hcore
        subst hcore
        exact ⟨by simp [reqOf, hR], rfl, Or.inl ⟨rfl, rfl⟩⟩
      | null => simp only [hR] at hcore; exact absurd hcore (by simp)
      | bool b2 => simp only [hR] at hcore; exact absurd hcore (by simp)
      | int n2 => simp only [hR] at hcore; exact absurd hcore (by simp)
      | str s2 => simp only [hR] at hcore; exact absurd hcore (by simp)
      | obj o2 => simp only [hR] at hcore; exact absurd hcore (by simp)
  | some val =>
    cases val with
    | null => simp only [hP] at hcore; exact absurd hcore (by simp)
    | bool b2 => simp only [hP] at hcore; exact absurd hcore (by simp)
    | int n2 => simp only [hP] at hcore; exact absurd hcore (by simp)
    | str s2 => simp only [hP] at hcore; exact absurd hcore (by simp)
    | arr xs2 => simp only [hP] at hcore; exact absurd hcore (by simp)
    | obj entries =>
      simp only [hP] at hcore
      cases hm : mergePropEntries st.props entries with
      | error e => simp only [hm] at hcore; exact absurd hcore (by simp)
      | ok props2 =>
        simp only [hm] at hcore
        cases hR : lookup? b "required" with
        | none =>
          simp only [hR] at hcore
          injection hcore with hcore
          subst hcore
          exact ⟨by simp [reqOf, hR], rfl, Or.inr ⟨entries, rfl, hm⟩⟩
        | some val2 =>
          cases val2 with
          | arr xs =>
            simp only [hR] at hcore
            injection hcore with hcore
            subst hcore
            exact ⟨by simp [reqOf, hR], rfl, Or.inr ⟨entries, rfl, hm⟩⟩
          | null => simp only [hR] at hcore; exact absurd hcore (by simp)
          | bool b2 => simp only [hR] at hcore; exact absurd hcore (by simp)
          | int n2 => simp only [hR] at hcore; exact absurd hcore (by simp)
          | str s2 => simp only [hR] at hcore; exact absurd hcore (by simp)
          | obj o2 => simp only [hR] at hcore; exact absurd hcore (by simp)

theorem mergeBranch_ptype {st : MergeState} {b : Obj} {st' : MergeState}
    (h : mergeBranch st b = .ok st')
    (hnodup : ∀ entries, lookup? b "properties" = some (.obj entries) →
      (entries.map Prod.fst).Nodup) (p : String) :
    stPType st' p = firstSome (stPType st p) (propTypeOf b p) := by
  obtain ⟨-, -, hprops⟩ := mergeBranch_ok_parts h
  rcases hprops with ⟨hP, hsame⟩ | ⟨entries, hP, hm⟩
  · unfold stPType propTypeOf
    rw [hsame, hP]
    cases hx : propsPType st.props p <;> simp [firstSome]
  · unfold stPType propTypeOf
    rw [hP]
    exact mergePropEntries_ptype entries st.props st'.props hm (hnodup entries hP) p

theorem mergeBranch_hasKey {st : MergeState} {b : Obj} {st' : MergeState}
    (h : mergeBranch st b = .ok st') (name : String) :
    hasKey st'.props name = (hasKey st.props name || declaresProp b name) := by
  obtain ⟨-, -, hprops⟩ := mergeBranch_ok_parts h
  rcases hprops with ⟨hP, hsame⟩ | ⟨entries, hP, hm⟩
  · rw [hsame]
    simp [declaresProp, hP]
  · rw [mergePropEntries_hasKey entries st.props st'.props hm name]
    simp [declaresProp, hP]

theorem mergeBranchCore_conflict {st : MergeState} {b : Obj} {p : String} {t t' : JVal}
    (ht : stPType st p = some t) (htt : pyTruthy t = true)
    (ht' : propTypeOf b p = some t') (htt' : pyTruthy t' = true)
    (hne : pyEq t t' = false) :
    ∃ e, mergeBranchCore st b = .error e := by
  have hPb : ∃ entries, lookup? b "properties" = some (.obj entries)
      ∧ propsPType entries p = some t' := by
    unfold propTypeOf at ht'
    cases hP : lookup? b "properties" with
    | none => rw [hP] at ht'; simp at ht'
    | some val =>
      cases val <;> rw [hP] at ht' <;> first
        | exact ⟨_, rfl, ht'⟩
        | simp at ht'
  obtain ⟨entries, hP, hpe⟩ := hPb
  obtain ⟨e, he⟩ := mergePropEntries_conflict entries st.props p t t' ht htt hpe htt' hne
  refine ⟨e, ?_⟩
  simp only [mergeBranchCore, hP, he]

theorem mergeBranch_conflict {st : MergeState} {b : Obj} {p : String} {t t' : JVal}
    (ht : stPType st p = some t) (htt : pyTruthy t = true)
    (ht' : propTypeOf b p = some t') (htt' : pyTruthy t' = true)
    (hne : pyEq t t' = false) :
    ∃ e, mergeBranch st b = .error e := by
  unfold mergeBranch
  cases hT : lookup? b "type" with
  | none => exact mergeBranchCore_conflict ht htt ht' htt' hne
  | some t0 =>
    by_cases hobj : (!pyEq t0 (.str "object")) = true
    · simp only [if_pos hobj]
      exact ⟨_, rfl⟩
    · simp only [if_neg hobj]
      exact mergeBranchCore_conflict ht htt ht' htt' hne

theorem mergeBranch_bad_type {st : MergeState} {b : Obj} {t : JVal}
    (hT : lookup? b "type" = some t) (hne : pyEq t (.str "object") = false) :
    ∃ e, mergeBranch st b = .error e := by
  unfold mergeBranch
  simp only [hT, hne]
  exact ⟨_, rfl⟩

theorem mergeBranches_append (st : MergeState) (xs ys : List Obj) :
    mergeBranches st (xs ++ ys)
      = (match mergeBranches st xs with
         | .ok stm => mergeBranches stm ys
         | .error e => .error e) := by
  induction xs generalizing st with
  | nil => simp [mergeBranches]
  | cons b bs ih =>
    simp only [List.cons_append, mergeBranches]
    cases h : mergeBranch st b with
    | ok st2 => exact ih st2
    | error e => rfl

theorem mergeBranches_error_of_mem {bs : List Obj} {b : Obj} (hmem : b ∈ bs)
    (herr : ∀ st, ∃ e, mergeBranch st b = .error e) :
    ∀ st, ∃ e, mergeBranches st bs = .error e := by
  induction bs with
  | nil => cases hmem
  | cons b0 rest ih =>
    intro st
    rcases List.mem_cons.mp hmem with rfl | hmem'
    · obtain ⟨e, he⟩ := herr st
      exact ⟨e, by simp only [mergeBranches, he]⟩
    · cases h : mergeBranch st b0 with
      | error e => exact ⟨e, by simp only [mergeBranches, h]⟩
      | ok st2 =>
        obtain ⟨e, he⟩ := ih hmem' st2
        exact ⟨e, by simp only [mergeBranches, h]; exact he⟩

theorem mergeBranches_ptype :
    ∀ (bs : List Obj) (st st' : MergeState), mergeBranches st bs = .ok st' →
      (∀ b ∈ bs, ∀ entries, lookup? b "properties" = some (.obj entries) →
        (entries.map Prod.fst).Nodup) →
      ∀ p, stPType st' p = firstSome (stPType st p) (firstDeclaredType bs p) := by
  intro bs
  induction bs with
  | nil =>
    intro st st' h _ p
    simp only [mergeBranches] at h
    injection h with h
    subst h
    cases hx : stPType st p <;> simp [firstDeclaredType, firstSome, hx]
  | cons b rest ih =>
    intro st st' h hnd p
    simp only [mergeBranches] at h
    cases hb : mergeBranch st b with
    | error e => rw [hb] at h; exact absurd h (by simp)
    | ok st2 =>
      rw [hb] at h
      rw [ih st2 st' h (fun b' hb' => hnd b' (List.mem_cons_of_mem _ hb')) p]
      rw [mergeBranch_ptype hb (hnd b (List.mem_cons_self _ _)) p]
      simp only [firstDeclaredType]
      cases stPType st p <;> cases propTypeOf b p <;> simp [firstSome]

theorem mergeBranches_required :
    ∀ (bs : List Obj) (st st' : MergeState), mergeBranches st bs = .ok st' →
      st'.required = st.required ++ (bs.map reqOf).flatten := by
  intro bs
  induction bs with
  | nil =>
    intro st st' h
    simp only [mergeBranches] at h
    injection h with h
    subst h
    simp
  | cons b rest ih =>
    intro st st' h
    simp only [mergeBranches] at h
    cases hb : mergeBranch st b with
    | error e => rw [hb] at h; exact absurd h (by simp)
    | ok st2 =>
      rw [hb] at h
      rw [ih st2 st' h, (mergeBranch_ok_parts hb).1]
      simp [List.append_assoc]

theorem mergeBranches_hasKey :
    ∀ (bs : List Obj) (st st' : MergeState), mergeBranches st bs = .ok st' →
      ∀ name, hasKey st'.props name
        = (hasKey st.props name || bs.any (fun b => declaresProp b name)) := by
  intro bs
  induction bs with
  | nil =>
    intro st st' h name
    simp only [mergeBranches] at h
    injection h with h
    subst h
    simp
  | cons b rest ih =>
    intro st st' h name
    simp only [mergeBranches] at h
    cases hb : mergeBranch st b with
    | error e => rw [hb] at h; exact absurd h (by simp)
    | ok st2 =>
      rw [hb] at h
      rw [ih st2 st' h name, mergeBranch_hasKey hb name]
      simp [Bool.or_assoc]

theorem mergeBranches_addProps :
    ∀ (bs : List Obj) (st st' : MergeState), mergeBranches st bs = .ok st' →
      st'.addProps = bs.foldl (fun acc b => apStep acc (apOf b)) st.addProps := by
  intro bs
  induction bs with
  | nil =>
    intro st st' h
    simp only [mergeBranches] at h
    injection h with h
    subst h
    rfl
  | cons b rest ih =>
    intro st st' h
    simp only [mergeBranches] at h
    cases hb : mergeBranch st b with
    | error e => rw [hb] at h; exact absurd h (by simp)
    | ok st2 =>
      rw [hb] at h
      rw [ih st2 st' h, (mergeBranch_ok_parts hb).2.1]
      rfl

theorem apFold_false_absorbs :
    ∀ (bs : List Obj),
      bs.foldl (fun acc b => apStep acc (apOf b)) (some (.bool false))
        = some (.bool false) := by
  intro bs
  induction bs with
  | nil => rfl
  | cons b rest ih =>
    simp only [List.foldl_cons]
    have : apStep (some (.bool false)) (apOf b) = some (.bool false) := by
      unfold apStep
      cases h : apOf b with
      | none => rfl
      | some v =>
        cases v with
        | bool bb => cases bb <;> rfl
        | null => rfl
        | int n => rfl
        | str s => rfl
        | arr xs => rfl
        | obj o => rfl
    rw [this, ih]

theorem apFold_false_of_mem :
    ∀ (bs : List Obj) (acc : Option JVal),
      (∃ b ∈ bs, apOf b = some (.bool false)) →
      bs.foldl (fun acc b => apStep acc (apOf b)) acc = some (.bool false) := by
  intro bs
  induction bs with
  | nil => intro acc h; obtain ⟨b, hb, _⟩ := h; cases hb
  | cons b0 rest ih =>
    intro acc h
    simp only [List.foldl_cons]
    obtain ⟨b, hb, hfalse⟩ := h
    rcases List.mem_cons.mp hb with rfl | hb'
    · rw [show apStep acc (apOf b) = some (.bool false) from by
        rw [hfalse]; cases acc <;> rfl]
      exact apFold_false_absorbs rest
    · exact ih _ ⟨b, hb', hfalse⟩

theorem apFold_skip_nulls :
    ∀ (l1 : List Obj),
      (∀ b' ∈ l1, apOf b' = none ∨ apOf b' = some .null) →
      l1.foldl (fun acc b => apStep acc (apOf b)) none = none := by
  intro l1
  induction l1 with
  | nil => intro _; rfl
  | cons b rest ih =>
    intro h
    simp only [List.foldl_cons]
    rcases h b (List.mem_cons_self _ _) with hb | hb <;>
      rw [show apStep none (apOf b) = none from by rw [hb]; rfl] <;>
      exact ih (fun b' hb' => h b' (List.mem_cons_of_mem _ hb'))

theorem apFold_keeps_some :
    ∀ (l2 : List Obj) (a : JVal),
      (∀ b' ∈ l2, apOf b' ≠ some (.bool false)) →
      l2.foldl (fun acc b => apStep acc (apOf b)) (some a) = some a := by
  intro l2
  induction l2 with
  | nil => intro a _; rfl
  | cons b rest ih =>
    intro a h
    simp only [List.foldl_cons]
    have hstep : apStep (some a) (apOf b) = some a := by
      unfold apStep
      cases hb : apOf b with
      | none => rfl
      | some v =>
        cases v with
        | bool bb =>
          cases bb with
          | false => exact absurd hb (h b (List.mem_cons_self _ _))
          | true => rfl
        | null => rfl
        | int n => rfl
        | str s => rfl
        | arr xs => rfl
        | obj o => rfl
    rw [hstep]
    exact ih a (fun b' hb' => h b' (List.mem_cons_of_mem _ hb'))

theorem optFromVal_of_ne_null {v : JVal} (h : v ≠ .null) : optFromVal v = some v := by
  cases v with
  | null => exact absurd rfl h
  | bool b => rfl
  | int n => rfl
  | str s => rfl
  | arr xs => rfl
  | obj o => rfl

theorem pyDedup_subset :
    ∀ (l acc : List JVal) (x : JVal),
      x ∈ l.foldl (fun acc x =>
        if acc.any (fun z => pyEq z x) then acc else acc ++ [x]) acc →
      x ∈ acc ∨ x ∈ l := by
  intro l
  induction l with
  | nil => intro acc x h; exact Or.inl h
  | cons y rest ih =>
    intro acc x h
    simp only [List.foldl_cons] at h
    rcases ih _ x h with hacc | hrest
    · by_cases hany : (acc.any (fun z => pyEq z y)) = true
      · rw [if_pos hany] at hacc
        exact Or.inl hacc
      · rw [if_neg hany] at hacc
        rcases List.mem_append.mp hacc with h1 | h2
        · exact Or.inl h1
        · simp only [List.mem_singleton] at h2
          exact Or.inr (h2 ▸ List.mem_cons_self _ _)
    · exact Or.inr (List.mem_cons_of_mem _ hrest)

theorem pyDedup_mono :
    ∀ (l acc : List JVal) (z : JVal), z ∈ acc →
      z ∈ l.foldl (fun acc x =>
        if acc.any (fun z => pyEq z x) then acc else acc ++ [x]) acc := by
  intro l
  induction l with
  | nil => intro acc z h; exact h
  | cons y rest ih =>
    intro acc z h
    simp only [List.foldl_cons]
    apply ih
    by_cases hany : (acc.any (fun z => pyEq z y)) = true
    · rw [if_pos hany]; exact h
    · rw [if_neg hany]; exact List.mem_append_left _ h

theorem pyDedup_covers :
    ∀ (l acc : List JVal) (y : JVal), y ∈ l →
      (y ∈ l.foldl (fun acc x =>
          if acc.any (fun z => pyEq z x) then acc else acc ++ [x]) acc)
      ∨ (∃ z ∈ l.foldl (fun acc x =>
          if acc.any (fun z => pyEq z x) then acc else acc ++ [x]) acc,
          pyEq z y = true) := by
  intro l
  induction l with
  | nil => intro acc y h; cases h
  | cons x0 rest ih =>
    intro acc y h
    simp only [List.foldl_cons]
    rcases List.mem_cons.mp h with rfl | h'
    · by_cases hany : (acc.any (fun z => pyEq z y)) = true
      · obtain ⟨z, hz, hzeq⟩ := List.any_eq_true.mp hany
        right
        exact ⟨z, pyDedup_mono rest _ z (by rw [if_pos hany]; exact hz), hzeq⟩
      · left
        apply pyDedup_mono
        rw [if_neg hany]
        exact List.mem_append_right _ (List.mem_singleton.mpr rfl)
    · exact ih _ y h'

theorem pyDedup_pairwise :
    ∀ (l acc : List JVal),
      acc.Pairwise (fun a b => pyEq a b = false) →
      (l.foldl (fun acc x =>
        if acc.any (fun z => pyEq z x) then acc else acc ++ [x]) acc).Pairwise
        (fun a b => pyEq a b = false) := by
  intro l
  induction l with
  | nil => intro acc h; exact h
  | cons x0 rest ih =>
    intro acc h
    simp only [List.foldl_cons]
    apply ih
    by_cases hany : (acc.any (fun z => pyEq z x0)) = true
    · rw [if_pos hany]; exact h
    · rw [if_neg hany]
      rw [List.pairwise_append]
      refine ⟨h, List.pairwise_singleton _ _, ?_⟩
      intro a ha b hb
      simp only [List.mem_singleton] at hb
      subst hb
      have := List.any_eq_true.not.mp hany
      push_neg at this
      have h2 := this a ha
      simpa using h2

theorem pyDedup_ne_nil {l : List JVal} (h : l ≠ []) : pyDedup l ≠ [] := by
  cases l with
  | nil => exact absurd rfl h
  | cons x rest =>
    intro hc
    unfold pyDedup at hc
    simp only [List.foldl_cons, List.any_nil] at hc
    rw [if_neg (by simp)] at hc
    simp only [List.nil_append] at hc
    have hx := pyDedup_mono rest [x] x (List.mem_singleton.mpr rfl)
    rw [hc] at hx
    cases hx

theorem lookup?_append (l1 l2 : Obj) (k : String) :
    lookup? (l1 ++ l2) k
      = (match lookup? l1 k with
         | some v => some v
         | none => lookup? l2 k) := by
  induction l1 with
  | nil => simp [lookup?]
  | cons e rest ih =>
    obtain ⟨k0, v⟩ := e
    by_cases h : k0 = k <;> simp [lookup?, h, ih]

theorem apStep_none_some {v : JVal} (hf : v ≠ .bool false) (hn : v ≠ .null) :
    apStep none (some v) = some v := by
  unfold apStep
  cases v with
  | bool bb =>
    cases bb with
    | false => exact absurd rfl hf
    | true => rfl
  | null => exact absurd rfl hn
  | int n => rfl
  | str s => rfl
  | arr xs => rfl
  | obj o => rfl

theorem lookup?_append_of_some {l1 : Obj} {k : String} {v : JVal} (l2 : Obj)
    (h : lookup? l1 k = some v) : lookup? (l1 ++ l2) k = some v := by
  rw [lookup?_append, h]

theorem lookup?_append_of_none {l1 : Obj} {k : String} (l2 : Obj)
    (h : lookup? l1 k = none) : lookup? (l1 ++ l2) k = lookup? l2 k := by
  rw [lookup?_append, h]

/-- C1: on an ordered list of object-shaped `allOf` branches, the merged
object schema realizes the reference fold: its `properties` keys are the
union of the branches' property names, its `required` list is the union
of the branches' required names with duplicates (under value equality)
removed, its `additionalProperties` value is `false` as soon as any
branch declares `false` and otherwise the first non-null declared value
(absent when nothing is declared), and the supplied title is carried
over. -/
theorem allof_object_merge_reference_fold
    (branches : List Obj) (title : String) (merged : Obj)
    (htitle : title ≠ "")
    (_hshape : is_allof_object_schemas branches = true)
    (h : merge_allof_object_schemas branches (some title) = .ok merged) :
    (∃ mp, lookup? merged "properties" = some (.obj mp)
      ∧ ∀ name, hasKey mp name = true ↔ ∃ b ∈ branches, declaresProp b name = true)
    ∧ ((branches.map reqOf).flatten = [] → hasKey merged "required" = false)
    ∧ ((branches.map reqOf).flatten ≠ [] →
        ∃ xs, lookup? merged "required" = some (.arr xs)
          ∧ (∀ x ∈ xs, x ∈ (branches.map reqOf).flatten)
          ∧ (∀ y ∈ (branches.map reqOf).flatten,
              y ∈ xs ∨ ∃ z ∈ xs, pyEq z y = true)
          ∧ xs.Pairwise (fun a b => pyEq a b = false))
    ∧ ((∃ b ∈ branches, apOf b = some (.bool false)) →
        lookup? merged "additionalProperties" = some (.bool false))
    ∧ (∀ (l1 : List Obj) (b : Obj) (l2 : List Obj) (v : JVal),
        branches = l1 ++ b :: l2 →
        (∀ b' ∈ branches, apOf b' ≠ some (.bool false)) →
        apOf b = some v → v ≠ .null →
        (∀ b' ∈ l1, apOf b' = none ∨ apOf b' = some .null) →
        lookup? merged "additionalProperties" = some v)
    ∧ ((∀ b ∈ branches, apOf b = none ∨ apOf b = some .null) →
        hasKey merged "additionalProperties" = false)
    ∧ lookup? merged "title" = some (.str title) := by
  unfold merge_allof_object_schemas at h
  cases hmb : mergeBranches ⟨[], [], none⟩ branches with
  | error e => rw [hmb] at h; exact absurd h (by simp)
  | ok st =>
    rw [hmb] at h
    injection h with h
    subst h
    simp only [if_pos htitle]
    have hreq_all : st.required = (branches.map reqOf).flatten := by
      have := mergeBranches_required branches _ _ hmb
      simpa using this
    have hap : st.addProps
        = branches.foldl (fun acc b => apStep acc (apOf b)) none :=
      mergeBranches_addProps branches _ _ hmb
    have hkeys : ∀ name, hasKey st.props name
        = branches.any (fun b => declaresProp b name) := by
      intro name
      have := mergeBranches_hasKey branches _ _ hmb name
      simpa [hasKey, lookup?] using this
    have hbaseprop : ∀ (tail : Obj),
        lookup? ([("type", JVal.str "object"),
          ("properties", JVal.obj st.props)] ++ tail) "properties"
          = some (.obj st.props) := by
      intro tail
      apply lookup?_append_of_some
      simp [lookup?]
    refine ⟨?_, ?_, ?_, ?_, ?_, ?_, ?_⟩
    · -- properties union
      refine ⟨st.props, ?_, ?_⟩
      · cases hreq0 : (pyDedup st.required).isEmpty <;>
          cases hap0 : st.addProps <;>
          simp [hreq0, hap0, lookup?_append, lookup?]
      · intro name
        rw [hkeys name]
        simp [List.any_eq_true]
    · -- no required anywhere
      intro hnil
      have hreqnil : st.required = [] := by rw [hreq_all, hnil]
      rw [hreqnil]
      cases hap0 : st.addProps <;>
        simp [pyDedup, hap0, hasKey, lookup?_append, lookup?]
    · -- required union, deduplicated
      intro hne
      have hreqne : st.required ≠ [] := by rw [hreq_all]; exact hne
      have hded : pyDedup st.required ≠ [] := pyDedup_ne_nil hreqne
      have hisEmpty : (pyDedup st.required).isEmpty = false := by
        cases hd : pyDedup st.required with
        | nil => exact absurd hd hded
        | cons a l => rfl
      refine ⟨pyDedup st.required, ?_, ?_, ?_, ?_⟩
      · cases hap0 : st.addProps <;>
          simp [hisEmpty, hap0, lookup?_append, lookup?]
      · intro x hx
        rw [← hreq_all]
        rcases pyDedup_subset st.required [] x hx with h0 | h0
        · cases h0
        · exact h0
      · intro y hy
        rw [← hreq_all] at hy
        exact pyDedup_covers st.required [] y hy
      · exact pyDedup_pairwise st.required [] List.Pairwise.nil
    · -- additionalProperties: false wins
      intro hfalse
      have hapf : st.addProps = some (.bool false) := by
        rw [hap]
        exact apFold_false_of_mem branches none hfalse
      rw [hapf]
      cases hreq0 : (pyDedup st.required).isEmpty <;>
        simp [hreq0, lookup?_append, lookup?]
    · -- additionalProperties: first non-null
      intro l1 b l2 v hsplit hnofalse hapb hvnull hl1
      have hapv : st.addProps = some v := by
        rw [hap, hsplit, List.foldl_append, List.foldl_cons]
        rw [apFold_skip_nulls l1 hl1, hapb,
          apStep_none_some
            (fun hh => hnofalse b (by rw [hsplit]; simp) (by rw [hapb, hh]))
            hvnull]
        exact apFold_keeps_some l2 v
          (fun b' hb' => hnofalse b' (by rw [hsplit]; simp [hb']))
      rw [hapv]
      cases hreq0 : (pyDedup st.required).isEmpty <;>
        simp [hreq0, lookup?_append, lookup?]
    · -- additionalProperties: absent when never declared
      intro hnone
      have hapn : st.addProps = none := by
        rw [hap]
        exact apFold_skip_nulls branches hnone
      rw [hapn]
      cases hreq0 : (pyDedup st.required).isEmpty <;>
        simp [hreq0, hasKey, lookup?_append, lookup?]
    · -- title carried over
      cases hreq0 : (pyDedup st.required).isEmpty <;>
        cases hap0 : st.addProps <;>
        simp [hreq0, hap0, lookup?_append, lookup?]

/-- C1 witness: the spec's merge example, with the title carried onto the
merged schema and the deduplicated required union visible. -/
theorem allof_object_merge_reference_fold_witness :
    lookup? [("type", JVal.str "object"),
      ("properties", JVal.obj
        [("a", JVal.obj [("type", JVal.str "integer")]),
         ("b", JVal.obj [("type", JVal.str "integer")]),
         ("c", JVal.obj [("type", JVal.str "integer")])]),
      ("required", JVal.arr [JVal.str "a", JVal.str "c"]),
      ("title", JVal.str "T")] "title" = some (.str "T") :=
  (allof_object_merge_reference_fold
    [[("properties", JVal.obj
        [("a", JVal.obj [("type", JVal.str "integer")]),
         ("b", JVal.obj [("type", JVal.str "integer")])]),
      ("required", JVal.arr [JVal.str "a"])],
     [("properties", JVal.obj [("c", JVal.obj [("type", JVal.str "integer")])]),
      ("required", JVal.arr [JVal.str "c", JVal.str "a"])]]
    "T"
    [("type", JVal.str "object"),
     ("properties", JVal.obj
       [("a", JVal.obj [("type", JVal.str "integer")]),
        ("b", JVal.obj [("type", JVal.str "integer")]),
        ("c", JVal.obj [("type", JVal.str "integer")])]),
     ("required", JVal.arr [JVal.str "a", JVal.str "c"]),
     ("title", JVal.str "T")]
    (by decide) rfl rfl).2.2.2.2.2.2

theorem firstDeclaredType_mem :
    ∀ (bs : List Obj) (p : String) (t : JVal),
      firstDeclaredType bs p = some t → ∃ b ∈ bs, propTypeOf b p = some t := by
  intro bs
  induction bs with
  | nil => intro p t h; simp [firstDeclaredType] at h
  | cons b rest ih =>
    intro p t h
    simp only [firstDeclaredType, firstSome] at h
    cases hb : propTypeOf b p with
    | some t0 =>
      rw [hb] at h
      injection h with h
      exact ⟨b, List.mem_cons_self _ _, by rw [hb, h]⟩
    | none =>
      rw [hb] at h
      obtain ⟨b', hb', ht'⟩ := ih p t h
      exact ⟨b', List.mem_cons_of_mem _ hb', ht'⟩

theorem merge_error_of_branches_error {branches : List Obj} {title : Option String}
    (h : ∃ e, mergeBranches ⟨[], [], none⟩ branches = .error e) :
    ∃ e, merge_allof_object_schemas branches title = .error e := by
  obtain ⟨e, he⟩ := h
  refine ⟨e, ?_⟩
  unfold merge_allof_object_schemas
  rw [he]

/-- C2: merging `allOf` object branches raises when two branches declare
the same property with two different (non-empty string) declared types,
and when any branch on the object-merge path declares a type other than
`object`; in particular the spec's `x` string-vs-integer instance fails
with an error message naming `x`. -/
theorem allof_merge_type_conflict_errors :
    (∀ (branches : List Obj) (p : String) (l1 : List Obj) (b1 : Obj)
        (l2 : List Obj) (b2 : Obj) (l3 : List Obj) (s1 s2 : String)
        (title : Option String),
      branches = l1 ++ b1 :: (l2 ++ b2 :: l3) →
      (∀ b ∈ branches, ∀ entries, lookup? b "properties" = some (.obj entries) →
        (entries.map Prod.fst).Nodup) →
      (∀ b ∈ branches, ∀ t, propTypeOf b p = some t → ∃ s, t = .str s ∧ s ≠ "") →
      propTypeOf b1 p = some (.str s1) → propTypeOf b2 p = some (.str s2) →
      s1 ≠ s2 →
      ∃ e, merge_allof_object_schemas branches title = .error e)
    ∧ (∀ (branches : List Obj) (b : Obj) (t : JVal) (title : Option String),
        b ∈ branches → lookup? b "type" = some t →
        pyEq t (.str "object") = false →
        ∃ e, merge_allof_object_schemas branches title = .error e)
    ∧ merge_allof_object_schemas
        [[("type", .str "object"),
          ("properties", .obj [("x", .obj [("type", .str "string")])])],
         [("type", .str "object"),
          ("properties", .obj [("x", .obj [("type", .str "integer")])])]]
        none
        = .error ("Incompatible types for property " ++ sq ++ "x" ++ sq
            ++ " in allOf: " ++ sq ++ "string" ++ sq ++ " vs " ++ sq ++ "integer" ++ sq)
    ∧ strContains ("Incompatible types for property " ++ sq ++ "x" ++ sq
        ++ " in allOf: " ++ sq ++ "string" ++ sq ++ " vs " ++ sq ++ "integer" ++ sq)
        "x" = true := by
  refine ⟨?_, ?_, rfl, by decide⟩
  · intro branches p l1 b1 l2 b2 l3 s1 s2 title hsplit hnodup H ht1 ht2 hne
    have hmem1 : b1 ∈ branches := by rw [hsplit]; simp
    have hmem2 : b2 ∈ branches := by rw [hsplit]; simp
    obtain ⟨s1', heq1, hs1⟩ := H b1 hmem1 _ ht1
    injection heq1 with heq1
    subst heq1
    obtain ⟨s2', heq2, hs2⟩ := H b2 hmem2 _ ht2
    injection heq2 with heq2
    subst heq2
    apply merge_error_of_branches_error
    cases hmb : mergeBranches ⟨[], [], none⟩ branches with
    | error e => exact ⟨e, rfl⟩
    | ok st =>
      exfalso
      rw [hsplit, mergeBranches_append] at hmb
      cases hA : mergeBranches ⟨[], [], none⟩ l1 with
      | error e => rw [hA] at hmb; exact absurd hmb (by simp)
      | ok stA =>
        rw [hA] at hmb
        simp only [mergeBranches] at hmb
        cases hB : mergeBranch stA b1 with
        | error e => rw [hB] at hmb; exact absurd hmb (by simp)
        | ok stB =>
          simp only [hB] at hmb
          rw [mergeBranches_append] at hmb
          cases hC : mergeBranches stB l2 with
          | error e => rw [hC] at hmb; exact absurd hmb (by simp)
          | ok stC =>
            rw [hC] at hmb
            simp only [mergeBranches] at hmb
            -- compute the tracked type of p at stC
            have hnd1 : ∀ b ∈ l1, ∀ entries,
                lookup? b "properties" = some (.obj entries) →
                (entries.map Prod.fst).Nodup := by
              intro b hb
              exact hnodup b (by rw [hsplit]; simp [hb])
            have hnd2 : ∀ b ∈ l2, ∀ entries,
                lookup? b "properties" = some (.obj entries) →
                (entries.map Prod.fst).Nodup := by
              intro b hb
              exact hnodup b (by rw [hsplit]; simp [hb])
            have hstA : stPType stA p = firstDeclaredType l1 p := by
              have := mergeBranches_ptype l1 _ _ hA hnd1 p
              simpa [stPType, propsPType, lookup?, firstSome] using this
            have hstB : stPType stB p = some (.str s1) ∨ False := by
              left
              rw [mergeBranch_ptype hB (hnodup b1 hmem1) p, hstA]
              cases hfd : firstDeclaredType l1 p with
              | none => simp [firstSome, ht1]
              | some t0 =>
                obtain ⟨b0, hb0, ht0⟩ := firstDeclaredType_mem l1 p t0 hfd
                obtain ⟨s0, heq0, hs0⟩ := H b0 (by rw [hsplit]; simp [hb0]) _ ht0
                subst heq0
                by_cases hss : s0 = s1
                · subst hss; simp [firstSome]
                · exfalso
                  obtain ⟨e, he⟩ := @mergeBranch_conflict stA b1 p
                    (.str s0) (.str s1)
                    (by rw [hstA, hfd]) (by simp [pyTruthy, hs0]) ht1
                    (by simp [pyTruthy, hs1]) (by simp [pyEq, hss])
                  rw [he] at hB
                  exact absurd hB (by simp)
            rcases hstB with hstB | hstB
            · have hstC : stPType stC p = some (.str s1) := by
                rw [mergeBranches_ptype l2 _ _ hC hnd2 p, hstB]
                simp [firstSome]
              obtain ⟨e, he⟩ := @mergeBranch_conflict stC b2 p
                (.str s1) (.str s2)
                hstC (by simp [pyTruthy, hs1]) ht2
                (by simp [pyTruthy, hs2]) (by simp [pyEq, hne])
              rw [he] at hmb
              exact absurd hmb (by simp)
            · exact hstB
  · intro branches b t title hmem hT hne
    apply merge_error_of_branches_error
    exact mergeBranches_error_of_mem hmem
      (fun st => mergeBranch_bad_type hT hne) _

/-- C2 witness: the conflict theorem and the non-object theorem applied
at concrete branch lists. -/
theorem allof_merge_type_conflict_errors_witness :
    (∃ e, merge_allof_object_schemas
      [[("type", JVal.str "object"),
        ("properties", JVal.obj [("x", JVal.obj [("type", JVal.str "string")])])],
       [("type", JVal.str "object"),
        ("properties", JVal.obj [("x", JVal.obj [("type", JVal.str "integer")])])]]
      none = .error e)
    ∧ (∃ e, merge_allof_object_schemas
        [[("type", JVal.str "object")], [("type", JVal.str "array")]]
        none = .error e) := by
  constructor
  · refine allof_merge_type_conflict_errors.1
      [[("type", JVal.str "object"),
        ("properties", JVal.obj [("x", JVal.obj [("type", JVal.str "string")])])],
       [("type", JVal.str "object"),
        ("properties", JVal.obj [("x", JVal.obj [("type", JVal.str "integer")])])]]
      "x" []
      [("type", JVal.str "object"),
       ("properties", JVal.obj [("x", JVal.obj [("type", JVal.str "string")])])]
      []
      [("type", JVal.str "object"),
       ("properties", JVal.obj [("x", JVal.obj [("type", JVal.str "integer")])])]
      [] "string" "integer" none rfl ?_ ?_ rfl rfl (by decide)
    · intro b hb entries hent
      fin_cases hb <;> simp [lookup?] at hent <;> subst hent <;> decide
    · intro b hb t ht
      fin_cases hb
      · rw [show propTypeOf
            [("type", JVal.str "object"),
             ("properties", JVal.obj [("x", JVal.obj [("type", JVal.str "string")])])]
            "x" = some (JVal.str "string") from rfl] at ht
        injection ht with ht
        exact ⟨"string", ht.symm, by decide⟩
      · rw [show propTypeOf
            [("type", JVal.str "object"),
             ("properties", JVal.obj [("x", JVal.obj [("type", JVal.str "integer")])])]
            "x" = some (JVal.str "integer") from rfl] at ht
        injection ht with ht
        exact ⟨"integer", ht.symm, by decide⟩
  · exact allof_merge_type_conflict_errors.2.1
      [[("type", JVal.str "object")], [("type", JVal.str "array")]]
      [("type", JVal.str "array")] (JVal.str "array") none
      (by simp) rfl (by decide)

end JsonSchemaPydantic
